import Mathlib

/-!
# CSVViewer — a shallow embedding of the storage core, with proofs

This file embeds the storage engine of the CSVViewer repository
(`server/src/db-manager.ts`, `server/src/routes/csv.ts`,
`server/src/routes/csv-optimized.ts`) as executable Lean definitions and
proves or refutes the specification's claims about it.

Conventions:
* JavaScript `Map` objects are modelled as association lists in insertion
  order with unique keys (`alGet`, `alSet`, `alErase`); `Map.set` on an
  existing key overwrites in place, on a fresh key appends.
* `JSON.stringify` / `JSON.parse` on arrays of strings (the row encoding
  used by the upload routes) are modelled character-exactly, including the
  escape sequences the serializer emits.
* SQL statements are embedded at the granularity the application issues
  them: each route-issued statement becomes one state-transition function
  on the table model.
-/

namespace CSVViewer

/-! ## JSON string-array codec

The ingestion pipeline stores every CSV record as `JSON.stringify(fields)`
(`csv.ts` lines 121, 129; `csv-optimized.ts` lines 85, 95) and the readers
recover it with `JSON.parse(row.row_data)` falling back to a comma split
for legacy rows (`csv.ts` lines 584-589).  The model below reproduces the
serializer's escaping (quote, backslash, and control characters) and a
recursive-descent parser for one-level arrays of strings. -/

/-- Lower-case hex digit of a value below 16, as emitted in a JSON
unicode escape. -/
def hexDigitChar (n : Nat) : Char :=
  if n < 10 then Char.ofNat (48 + n) else Char.ofNat (87 + n)

/-- Value of one hex digit character, as read back by a JSON parser. -/
def hexDigitVal (c : Char) : Option Nat :=
  if 48 ≤ c.toNat ∧ c.toNat ≤ 57 then some (c.toNat - 48)
  else if 97 ≤ c.toNat ∧ c.toNat ≤ 102 then some (c.toNat - 87)
  else if 65 ≤ c.toNat ∧ c.toNat ≤ 70 then some (c.toNat - 55)
  else none

/-- JSON escaping of one character, exactly as `JSON.stringify` emits it:
the two metacharacters get a backslash, the five named control characters
get their short escapes, every other control character becomes a
`\u00XX` escape, and all remaining characters pass through unchanged. -/
def escapeChar (c : Char) : List Char :=
  if c = '"' then ['\\', '"']
  else if c = '\\' then ['\\', '\\']
  else if c = '\n' then ['\\', 'n']
  else if c = '\r' then ['\\', 'r']
  else if c = '\t' then ['\\', 't']
  else if c.toNat = 8 then ['\\', 'b']
  else if c.toNat = 12 then ['\\', 'f']
  else if c.toNat < 32 then
    ['\\', 'u', '0', '0', hexDigitChar (c.toNat / 16), hexDigitChar (c.toNat % 16)]
  else [c]

/-- `JSON.stringify` of one string, as a character list: a quoted,
escaped character run. -/
def encodeJsonString (s : String) : List Char :=
  '"' :: (s.toList.flatMap escapeChar ++ ['"'])

/-- The comma-separated element list of `JSON.stringify(fields)`. -/
def encodeElems : List String → List Char
  | [] => []
  | [s] => encodeJsonString s
  | s :: rest => encodeJsonString s ++ ',' :: encodeElems rest

/-- Model of `JSON.stringify` applied to an array of strings: the exact
text stored in the `row_data` column by both upload routes. -/
def jsonStringifyArray (l : List String) : String :=
  ⟨'[' :: (encodeElems l ++ [']'])⟩

/-- Parse the body of a JSON string after the opening quote, undoing the
escapes; returns the decoded characters and the remainder after the
closing quote. -/
def parseStringBody : List Char → Option (List Char × List Char)
  | [] => none
  | '"' :: rest => some ([], rest)
  | '\\' :: 'u' :: h1 :: h2 :: h3 :: h4 :: rest =>
    match hexDigitVal h1, hexDigitVal h2, hexDigitVal h3, hexDigitVal h4 with
    | some a, some b, some c, some d =>
      (parseStringBody rest).map (fun p => (Char.ofNat (((a * 16 + b) * 16 + c) * 16 + d) :: p.1, p.2))
    | _, _, _, _ => none
  | '\\' :: e :: rest =>
    match (if e = '"' then some '"'
           else if e = '\\' then some '\\'
           else if e = '/' then some '/'
           else if e = 'n' then some '\n'
           else if e = 'r' then some '\r'
           else if e = 't' then some '\t'
           else if e = 'b' then some (Char.ofNat 8)
           else if e = 'f' then some (Char.ofNat 12)
           else none) with
    | some ch => (parseStringBody rest).map (fun p => (ch :: p.1, p.2))
    | none => none
  | c :: rest => (parseStringBody rest).map (fun p => (c :: p.1, p.2))

/-- Parse the element list of a JSON string array after the opening
bracket: quoted strings separated by commas, ended by the closing
bracket.  Fuel-bounded; the caller passes the input length. -/
def parseElems : Nat → List Char → Option (List String × List Char)
  | 0, _ => none
  | Nat.succ fuel, cs =>
    match cs with
    | ']' :: rest => some ([], rest)
    | '"' :: cs1 =>
      match parseStringBody cs1 with
      | some (chars, ',' :: rest) =>
        (parseElems fuel rest).map (fun p => (String.mk chars :: p.1, p.2))
      | some (chars, ']' :: rest) => some ([String.mk chars], rest)
      | _ => none
    | _ => none

/-- Model of `JSON.parse` restricted to the values the viewer stores:
a flat JSON array of strings.  Returns `none` on anything else, which is
the failure path the readers catch before falling back to a comma
split. -/
def jsonParseStringArray (s : String) : Option (List String) :=
  match s.toList with
  | '[' :: cs =>
    match parseElems cs.length cs with
    | some (elems, []) => some elems
    | _ => none
  | _ => none

/-- Each lower-case hex digit the serializer emits reads back as its
value. -/
theorem hexDigitVal_hexDigitChar : ∀ n < 16, hexDigitVal (hexDigitChar n) = some n := by decide

/-- Unescaping one escaped character recovers it and continues with the
remaining input. -/
theorem parseStringBody_escapeChar (c : Char) (rest : List Char) :
    parseStringBody (escapeChar c ++ rest)
      = (parseStringBody rest).map (fun p => (c :: p.1, p.2)) := by
  by_cases h1 : c = '"'
  · subst h1; simp [escapeChar, parseStringBody]
  · by_cases h2 : c = '\\'
    · subst h2; simp [escapeChar, parseStringBody]
    · by_cases h3 : c = '\n'
      · subst h3; simp [escapeChar, parseStringBody]
      · by_cases h4 : c = '\r'
        · subst h4; simp [escapeChar, parseStringBody]
        · by_cases h5 : c = '\t'
          · subst h5; simp [escapeChar, parseStringBody]
          · by_cases h6 : c.toNat = 8
            · have hc : c = Char.ofNat 8 := by rw [← h6, Char.ofNat_toNat]
              subst hc; simp [escapeChar, parseStringBody]
            · by_cases h7 : c.toNat = 12
              · have hc : c = Char.ofNat 12 := by rw [← h7, Char.ofNat_toNat]
                subst hc; simp [escapeChar, parseStringBody]
              · by_cases h8 : c.toNat < 32
                · have hdiv : c.toNat / 16 < 16 := by omega
                  have hmod : c.toNat % 16 < 16 := Nat.mod_lt _ (by omega)
                  have harith : c.toNat / 16 * 16 + c.toNat % 16 = c.toNat := by
                    omega
                  simp only [escapeChar, if_neg h1, if_neg h2, if_neg h3, if_neg h4, if_neg h5,
                    if_neg h6, if_neg h7, if_pos h8, List.cons_append, List.nil_append]
                  rw [parseStringBody]
                  rw [hexDigitVal_hexDigitChar _ hdiv, hexDigitVal_hexDigitChar _ hmod]
                  have h0 : hexDigitVal '0' = some 0 := by decide
                  rw [h0]
                  simp [harith, Char.ofNat_toNat]
                · simp only [escapeChar, if_neg h1, if_neg h2, if_neg h3, if_neg h4, if_neg h5,
                    if_neg h6, if_neg h7, if_neg h8, List.cons_append, List.nil_append]
                  rw [parseStringBody.eq_def]
                  simp [h1, h2]

/-- Unescaping a whole escaped character run stops exactly at the
closing quote and recovers the run. -/
theorem parseStringBody_flatMap (cs : List Char) (rest : List Char) :
    parseStringBody (cs.flatMap escapeChar ++ '"' :: rest) = some (cs, rest) := by
  induction cs with
  | nil => simp [parseStringBody]
  | cons c cs ih =>
    rw [List.flatMap_cons, List.append_assoc, parseStringBody_escapeChar, ih]
    rfl

/-- The encoded element list is at least as long as the element count,
so the input length suffices as parser fuel. -/
theorem le_length_encodeElems (l : List String) : l.length ≤ (encodeElems l).length := by
  induction l with
  | nil => simp [encodeElems]
  | cons s l ih =>
    cases l with
    | nil => simp [encodeElems, encodeJsonString]
    | cons t ts =>
      simp only [encodeElems, List.length_append, List.length_cons] at *
      have : 1 ≤ (encodeJsonString s).length := by simp [encodeJsonString]
      omega

/-- Parsing an encoded element list with enough fuel recovers the
elements and stops after the closing bracket. -/
theorem parseElems_encodeElems : ∀ (l : List String) (fuel : Nat) (rest : List Char),
    l.length + 1 ≤ fuel →
    parseElems fuel (encodeElems l ++ ']' :: rest) = some (l, rest) := by
  intro l
  induction l with
  | nil =>
    intro fuel rest hf
    match fuel, hf with
    | Nat.succ f, _ => simp [encodeElems, parseElems]
  | cons s l ih =>
    intro fuel rest hf
    match fuel, hf with
    | Nat.succ f, hf =>
      cases l with
      | nil =>
        show parseElems _ (encodeJsonString s ++ ']' :: rest) = _
        rw [encodeJsonString, List.cons_append, List.append_assoc]
        simp only [parseElems, List.cons_append, List.nil_append]
        rw [parseStringBody_flatMap]
        simp
      | cons t ts =>
        show parseElems _ ((encodeJsonString s ++ ',' :: encodeElems (t :: ts)) ++ ']' :: rest) = _
        rw [encodeJsonString]
        simp only [List.cons_append, List.nil_append, List.singleton_append,
          List.append_assoc]
        simp only [parseElems]
        rw [parseStringBody_flatMap]
        show Option.map (fun p => (String.mk s.toList :: p.1, p.2))
          (parseElems f (encodeElems (t :: ts) ++ ']' :: rest)) = _
        rw [ih f rest (by simp at hf ⊢; omega)]
        rfl

/-- The row encoding round-trip: parsing a stringified field array
recovers the exact fields, embedded quotes, commas, newlines and control
characters included. -/
theorem jsonParse_jsonStringify (l : List String) :
    jsonParseStringArray (jsonStringifyArray l) = some l := by
  show (match parseElems (encodeElems l ++ [']']).length (encodeElems l ++ [']']) with
    | some (elems, []) => some elems
    | _ => none) = some l
  have hlen : l.length + 1 ≤ (encodeElems l ++ [']']).length := by
    have := le_length_encodeElems l
    simp only [List.length_append, List.length_cons, List.length_nil]
    omega
  have hsplit : encodeElems l ++ [']'] = encodeElems l ++ ']' :: [] := rfl
  rw [hsplit, parseElems_encodeElems l _ [] (by simpa using hlen)]

/-! ## Data model

`csv_files` metadata records and `csv_data` rows, shared by both
backends (`db-manager.ts` lines 57-78 for the relational schema, lines
485-531 for the file-database record shapes).  `upload_date` strings are
modelled as natural-number timestamps. -/

/-- One `csv_files` metadata record. -/
structure CsvFileRec where
  id : Nat
  userId : Nat
  filename : String
  originalName : String
  rowCount : Nat
  uploadDate : Nat
deriving DecidableEq, Repr

/-- One `csv_data` row: the JSON-encoded field array plus its position
and header flag (`is_header` stored as 0/1, modelled as a Bool). -/
structure StoredRow where
  fileId : Nat
  rowNumber : Nat
  rowData : String
  isHeader : Bool
deriving DecidableEq, Repr

/-- Row-data decoding used by every reader (`csv.ts` lines 582-589):
try `JSON.parse`, and on failure fall back to splitting the legacy
comma-joined format and trimming each piece. -/
def parseRowData (s : String) : List String :=
  match jsonParseStringArray s with
  | some values => values
  | none => (s.splitOn ",").map String.trim

/-! ## Association lists with JavaScript `Map` semantics

`FileDatabase` keeps its tables in `Map` objects.  `set` on a present
key overwrites in place, on an absent key appends; iteration follows
insertion order; `size` is the number of keys. -/

/-- `Map.get`: the value at a key, or `none`. -/
def alGet {α : Type} (k : Nat) : List (Nat × α) → Option α
  | [] => none
  | (k2, v) :: rest => if k2 = k then some v else alGet k rest

/-- `Map.set`: overwrite in place when present, append when absent. -/
def alSet {α : Type} (k : Nat) (v : α) : List (Nat × α) → List (Nat × α)
  | [] => [(k, v)]
  | (k2, v2) :: rest => if k2 = k then (k, v) :: rest else (k2, v2) :: alSet k v rest

/-- `Map.delete`: remove the entry at a key, if any. -/
def alErase {α : Type} (k : Nat) : List (Nat × α) → List (Nat × α)
  | [] => []
  | (k2, v2) :: rest => if k2 = k then rest else (k2, v2) :: alErase k rest

/-! ## Storage Selector

`SmartDatabaseSelector.selectDatabase` (`db-manager.ts` lines 873-880):
at most 50 MB routes to the SQL.js record store, above 50 MB to the
file database. -/

/-- The two storage backends (`DbType` in `db-manager.ts`). -/
inductive DbType where
  | sqlite
  | filedb
deriving DecidableEq, Repr

/-- `SmartDatabaseSelector.selectDatabase`: the size-based routing
policy, on exact rationals standing in for the JavaScript number. -/
def selectDatabase (fileSizeMB : ℚ) : DbType :=
  if fileSizeMB ≤ 50 then DbType.sqlite else DbType.filedb

/-! ## Record Store (SQL.js embedded database)

The in-memory table state behind `SqliteDatabase`
(`db-manager.ts` lines 22-131).  SQL statements are embedded at the
granularity the routes issue them; `csv_files.id` is an `AUTOINCREMENT`
column, so the next id is a counter that deletions never rewind. -/

/-- The in-memory image of the SQL.js database: the two tables the CSV
routes touch, plus the `AUTOINCREMENT` counter for `csv_files.id`. -/
structure SqliteMem where
  nextFileId : Nat
  csvFiles : List CsvFileRec
  csvData : List StoredRow
deriving DecidableEq, Repr

/-- A freshly created database image: empty tables, ids start at 1. -/
def SqliteMem.empty : SqliteMem := ⟨1, [], []⟩

/-- `INSERT INTO csv_files (user_id, filename, original_name)`:
`row_count` defaults to 0, the id comes from the autoincrement
counter. -/
def sqInsertFile (m : SqliteMem) (userId : Nat) (filename originalName : String)
    (now : Nat) : SqliteMem :=
  { m with
    nextFileId := m.nextFileId + 1,
    csvFiles := m.csvFiles ++ [⟨m.nextFileId, userId, filename, originalName, 0, now⟩] }

/-- `INSERT INTO csv_data (file_id, row_number, row_data, is_header)`. -/
def sqInsertData (m : SqliteMem) (r : StoredRow) : SqliteMem :=
  { m with csvData := m.csvData ++ [r] }

/-- `UPDATE csv_files SET row_count = ? WHERE id = ?`. -/
def sqUpdateRowCount (m : SqliteMem) (rowCount fileId : Nat) : SqliteMem :=
  { m with
    csvFiles := m.csvFiles.map (fun f => if f.id = fileId then { f with rowCount := rowCount } else f) }

/-- `DELETE FROM csv_data WHERE file_id = ?`. -/
def sqDeleteData (m : SqliteMem) (fileId : Nat) : SqliteMem :=
  { m with csvData := m.csvData.filter (fun r => r.fileId ≠ fileId) }

/-- `DELETE FROM csv_files WHERE id = ?`. -/
def sqDeleteFile (m : SqliteMem) (fileId : Nat) : SqliteMem :=
  { m with csvFiles := m.csvFiles.filter (fun f => f.id ≠ fileId) }

/-- `SELECT * FROM csv_files WHERE id = ? AND user_id = ?`: first match
in table order. -/
def sqFindFile (m : SqliteMem) (fileId userId : Nat) : Option CsvFileRec :=
  m.csvFiles.find? (fun f => f.id = fileId ∧ f.userId = userId)

/-- `SELECT filename FROM csv_files WHERE id = ?` (the delete route's
target-store probe, which checks no user). -/
def sqFindFileById (m : SqliteMem) (fileId : Nat) : Option CsvFileRec :=
  m.csvFiles.find? (fun f => f.id = fileId)

/-- `SELECT id FROM csv_files WHERE filename = ? ORDER BY id DESC
LIMIT 1`: the largest id among records with the given stored
filename. -/
def sqFindIdByFilename (m : SqliteMem) (filename : String) : Option Nat :=
  ((m.csvFiles.filter (fun f => f.filename = filename)).map (fun f => f.id)).max?

/-- `SELECT row_data FROM csv_data WHERE file_id = ? AND is_header = 1`:
first match in row-id order. -/
def sqFindHeaderRow (m : SqliteMem) (fileId : Nat) : Option StoredRow :=
  m.csvData.find? (fun r => r.fileId = fileId ∧ r.isHeader)

/-- `SELECT COUNT(*) FROM csv_data WHERE file_id = ? AND
is_header = 0`. -/
def sqCountDataRows (m : SqliteMem) (fileId : Nat) : Nat :=
  (m.csvData.filter (fun r => r.fileId = fileId ∧ ¬r.isHeader)).length

/-- Insertion sort by a boolean "comes no later than" relation, the
model of `ORDER BY` on an embedded table. -/
def insertSorted {α : Type} (le : α → α → Bool) (x : α) : List α → List α
  | [] => [x]
  | y :: ys => if le x y then x :: y :: ys else y :: insertSorted le x ys

/-- Sort a list by a boolean comparison (stable, like `Array.sort`). -/
def sortByLe {α : Type} (le : α → α → Bool) (l : List α) : List α :=
  l.foldr (insertSorted le) []

/-- `SELECT row_number, row_data FROM csv_data WHERE file_id = ? AND
is_header = 0 ORDER BY row_number LIMIT ? OFFSET ?`. -/
def sqPageRows (m : SqliteMem) (fileId limit offset : Nat) : List StoredRow :=
  (((sortByLe (fun a b => a.rowNumber ≤ b.rowNumber)
      (m.csvData.filter (fun r => r.fileId = fileId ∧ ¬r.isHeader))).drop offset).take limit)

/-! ## Streamed File Store (`FileDatabase`)

`db-manager.ts` lines 134-785: a `csv_files` index `Map` persisted as
`csv_files.json` on every mutation, a per-file in-memory row cache, a
per-file pending-write buffer, one `writeTimer` field for the debounced
flush, and one append-only `csv_data_<fileId>.jsonl` log per file.  Log
lines always come from `JSON.stringify` of a row object, so the log is
modelled as the list of rows its lines decode to. -/

/-- The mutable state of one `FileDatabase` instance together with the
log files it appends to.  `maxMemoryRows` is 10,000,000 in the source;
it is a parameter of the cache inserts below. -/
structure FileMem where
  csvFiles : List (Nat × CsvFileRec)
  csvData : List (Nat × List (Nat × StoredRow))
  pendingWrites : List (Nat × List StoredRow)
  writeTimerSet : Bool
  logFiles : List (Nat × List StoredRow)
deriving DecidableEq, Repr

/-- `maxMemoryRows` (`db-manager.ts` line 141). -/
def maxMemoryRows : Nat := 10000000

/-- A freshly constructed `FileDatabase` after `init()`: the metadata
index is loaded from `csv_files.json`, caches and buffers start empty,
no timer is pending. -/
def FileMem.init (index : List (Nat × CsvFileRec)) (logs : List (Nat × List StoredRow)) :
    FileMem :=
  ⟨index, [], [], false, logs⟩

/-- `INSERT INTO csv_files` on the file database: the id is minted as
the current `Map` size plus one, the record starts with `row_count` 0,
and an empty cache entry is created; returns `lastInsertRowid`. -/
def fdInsertFile (m : FileMem) (userId : Nat) (filename originalName : String)
    (now : Nat) : FileMem × Nat :=
  let id := m.csvFiles.length + 1
  ({ m with
      csvFiles := alSet id ⟨id, userId, filename, originalName, 0, now⟩ m.csvFiles,
      csvData := alSet id [] m.csvData }, id)

/-- `scheduleFlush` (`db-manager.ts` lines 459-468): a no-op when the
single `writeTimer` is already pending, otherwise it arms the timer. -/
def fdScheduleFlush (m : FileMem) : FileMem :=
  if m.writeTimerSet then m else { m with writeTimerSet := true }

/-- `INSERT INTO csv_data` on the file database: when the file has a
cache entry, the row is cached (subject to the memory ceiling), pushed
onto the file's pending buffer, and a flush is scheduled; otherwise the
statement silently does nothing. -/
def fdInsertData (m : FileMem) (r : StoredRow) : FileMem :=
  match alGet r.fileId m.csvData with
  | none => m
  | some fileData =>
    let fileData2 :=
      if fileData.length < maxMemoryRows then alSet r.rowNumber r fileData
      else if fileData.length = maxMemoryRows then []
      else fileData
    let pending := (alGet r.fileId m.pendingWrites).getD []
    fdScheduleFlush
      { m with
        csvData := alSet r.fileId fileData2 m.csvData,
        pendingWrites := alSet r.fileId (pending ++ [r]) m.pendingWrites }

/-- `UPDATE csv_files SET row_count = ? WHERE id = ?` on the file
database. -/
def fdUpdateRowCount (m : FileMem) (rowCount fileId : Nat) : FileMem :=
  match alGet fileId m.csvFiles with
  | none => m
  | some f => { m with csvFiles := alSet fileId { f with rowCount := rowCount } m.csvFiles }

/-- `flushCsvData(fileId)`: append the file's pending rows to its
`.jsonl` log and drop the buffer entry; a missing or empty buffer is
left untouched. -/
def fdFlushFile (m : FileMem) (fileId : Nat) : FileMem :=
  match alGet fileId m.pendingWrites with
  | none => m
  | some [] => m
  | some pending =>
    { m with
      logFiles := alSet fileId ((alGet fileId m.logFiles).getD [] ++ pending) m.logFiles,
      pendingWrites := alErase fileId m.pendingWrites }

/-- `save()` on the file database: flush every file's pending buffer, in
buffer insertion order. -/
def fdSave (m : FileMem) : FileMem :=
  (m.pendingWrites.map (fun p => p.1)).foldl fdFlushFile m

/-- The debounced `writeTimer` callback firing: flushes the pending
buffers of every file in the instance, then clears the timer. -/
def fdTimerFire (m : FileMem) : FileMem :=
  if m.writeTimerSet then { fdSave m with writeTimerSet := false } else m

/-- `DELETE FROM csv_data WHERE file_id = ?` on the file database:
drops the cache entry, the pending buffer, and unlinks the `.jsonl`
log. -/
def fdDeleteData (m : FileMem) (fileId : Nat) : FileMem :=
  { m with
    csvData := alErase fileId m.csvData,
    pendingWrites := alErase fileId m.pendingWrites,
    logFiles := alErase fileId m.logFiles }

/-- `DELETE FROM csv_files WHERE id = ?` on the file database: drops
the index entry, the cache entry, and the pending buffer. -/
def fdDeleteFile (m : FileMem) (fileId : Nat) : FileMem :=
  { m with
    csvFiles := alErase fileId m.csvFiles,
    csvData := alErase fileId m.csvData,
    pendingWrites := alErase fileId m.pendingWrites }

/-- The deterministic portion of `loadCsvDataFromFile`: the synchronous
branch parses the log's first lines into the cache keyed by row number,
honouring `maxLoadRows = 100`.  The 50 KB read cap and the asynchronous
top-up of up to 1000 further rows depend on I/O timing and are not
modelled; the cache a read sees holds at least this portion. -/
def fdLoadCache (log : List StoredRow) : List (Nat × StoredRow) :=
  (log.take 100).foldl (fun acc r => alSet r.rowNumber r acc) []

/-- `getAsync` counting branch (`SELECT COUNT ...` on the file
database): the number of cached non-header rows for the file, after the
lazy load; `0` when the file has no cache entry and no log. -/
def fdLiveCount (logs : List (Nat × List StoredRow)) (fileId : Nat) : Nat :=
  match alGet fileId logs with
  | none => 0
  | some log => ((fdLoadCache log).filter (fun p => ¬p.2.isHeader)).length

/-! ## Ingestion Pipeline

The `Papa.parse` streaming callback of the main upload route
(`csv.ts` lines 108-227): the first record becomes the header row and
is inserted immediately; each further record is numbered sequentially,
JSON-encoded, and accumulated into a batch that is inserted when it
reaches `batchSize = 100000` rows; `complete` inserts the remainder.
The machine records the sequence of `INSERT INTO csv_data` statements
actually issued, in order. -/

/-- The mutable state of the streaming parse callback. -/
structure IngestState where
  isFirstRow : Bool
  rowCount : Nat
  batch : List StoredRow
  written : List StoredRow
deriving DecidableEq, Repr

/-- One `step` callback on a parsed record. -/
def ingestStep (fileId batchSize : Nat) (st : IngestState) (record : List String) :
    IngestState :=
  if st.isFirstRow then
    { st with
      isFirstRow := false,
      written := st.written ++ [⟨fileId, 0, jsonStringifyArray record, true⟩] }
  else
    let rc := st.rowCount + 1
    let batch := st.batch ++ [⟨fileId, rc, jsonStringifyArray record, false⟩]
    if batchSize ≤ batch.length then
      { isFirstRow := false, rowCount := rc, batch := [], written := st.written ++ batch }
    else
      { isFirstRow := false, rowCount := rc, batch := batch, written := st.written }

/-- The `complete` callback: insert whatever remains in the batch. -/
def ingestComplete (st : IngestState) : IngestState :=
  { st with batch := [], written := st.written ++ st.batch }

/-- The whole streaming parse of an upload: every record stepped in
source order, then the completion flush. -/
def ingestRun (fileId batchSize : Nat) (records : List (List String)) : IngestState :=
  ingestComplete (records.foldl (ingestStep fileId batchSize) ⟨true, 0, [], []⟩)

/-- The intended shape of the data-row inserts: records numbered
consecutively from `start`, JSON-encoded, `is_header = 0`. -/
def dataRows (fileId start : Nat) : List (List String) → List StoredRow
  | [] => []
  | r :: rs => ⟨fileId, start, jsonStringifyArray r, false⟩ :: dataRows fileId (start + 1) rs

/-! ## Streamed readers of the `.jsonl` log

The page route reads large files by scanning the log directly
(`csv.ts` lines 393-453 for the header, 503-569 for a page): lines are
JSON-parsed, the header scan stops at the first header line whose
`row_data` decodes, and the page scan counts non-header lines and keeps
those whose running index falls inside the requested window. -/

/-- The streamed header scan: first line with this file's id and the
header flag whose field array decodes; skipped otherwise.  Returns `[]`
when the scan finds nothing, like the route's promise. -/
def fdStreamHeader (log : List StoredRow) (fileId : Nat) : List String :=
  match log.find? (fun r =>
      r.fileId = fileId ∧ r.isHeader ∧ (jsonParseStringArray r.rowData).isSome) with
  | some r => (jsonParseStringArray r.rowData).getD []
  | none => []

/-- The streamed page scan: walk the log, count lines with this file's
id and `is_header = 0`, and collect those whose running count lies in
`[offset + 1, offset + pageSize]`. -/
def fdStreamPage (log : List StoredRow) (fileId offset pageSize : Nat) : List StoredRow :=
  (((log.filter (fun r => r.fileId = fileId ∧ ¬r.isHeader)).drop offset).take pageSize)

/-! ## Persistent state and the CSV routes

Every request constructs fresh database instances
(`SmartDatabaseSelector.createOptimizedDatabase` builds a new
`DatabaseManager` per call) and closes them in `finally`, so the state
that survives between requests is what reaches disk: the SQL.js image
(rewritten on every mutating `run`), the file database's
`csv_files.json` index (rewritten on every metadata mutation), the
per-file `.jsonl` logs, and the uploaded source files. -/

/-- The on-disk state shared by all requests. -/
structure Disk where
  sqliteImage : SqliteMem
  filedbIndex : List (Nat × CsvFileRec)
  logFiles : List (Nat × List StoredRow)
  uploads : List String
deriving DecidableEq, Repr

/-- A fresh deployment: nothing stored yet. -/
def Disk.empty : Disk := ⟨SqliteMem.empty, [], [], []⟩

/-- The caller-visible outcome of an upload request. -/
inductive UploadOutcome where
  | success (fileId rowCount : Nat)
  | emptyFileError
  | serverError
deriving DecidableEq, Repr

/-- `POST /upload` (`csv.ts` lines 46-289): store the multipart file,
route by declared size, register the metadata record, stream-parse and
ingest the records, reject uploads with zero data rows, otherwise
record the final row count. -/
def uploadOp (d : Disk) (userId : Nat) (filename originalName : String)
    (sizeMB : ℚ) (now : Nat) (records : List (List String)) : Disk × UploadOutcome :=
  let uploads := d.uploads ++ [filename]
  match selectDatabase sizeMB with
  | DbType.sqlite =>
    let m1 := sqInsertFile d.sqliteImage userId filename originalName now
    match sqFindIdByFilename m1 filename with
    | none => (⟨m1, d.filedbIndex, d.logFiles, uploads⟩, UploadOutcome.serverError)
    | some fileId =>
      let st := ingestRun fileId 100000 records
      let m2 := st.written.foldl sqInsertData m1
      if st.rowCount = 0 then
        (⟨m2, d.filedbIndex, d.logFiles, uploads⟩, UploadOutcome.emptyFileError)
      else
        (⟨sqUpdateRowCount m2 st.rowCount fileId, d.filedbIndex, d.logFiles, uploads⟩,
          UploadOutcome.success fileId st.rowCount)
  | DbType.filedb =>
    let f0 := FileMem.init d.filedbIndex d.logFiles
    let ins := fdInsertFile f0 userId filename originalName now
    let fileId := ins.2
    let st := ingestRun fileId 100000 records
    let f2 := fdSave (st.written.foldl fdInsertData ins.1)
    if st.rowCount = 0 then
      (⟨d.sqliteImage, f2.csvFiles, f2.logFiles, uploads⟩, UploadOutcome.emptyFileError)
    else
      let f3 := fdUpdateRowCount f2 st.rowCount fileId
      (⟨d.sqliteImage, f3.csvFiles, f3.logFiles, uploads⟩,
        UploadOutcome.success fileId st.rowCount)

/-- Header fallback on the file-database page path: when the streamed
scan found nothing, the route queries the lazily loaded cache for a
header row and decodes it with the JSON-then-comma-split fallback. -/
def fdCacheHeader (logs : List (Nat × List StoredRow)) (fileId : Nat) : List String :=
  match alGet fileId logs with
  | none => []
  | some log =>
    match (fdLoadCache log).find? (fun p => p.2.isHeader) with
    | some p => parseRowData p.2.rowData
    | none => []

/-- A JavaScript value stored in a row object: the `_rowNumber` number
or a field string. -/
inductive JsValue where
  | num (n : Nat)
  | str (s : String)
deriving DecidableEq, Repr

/-- Property assignment on a plain JavaScript object, modelled as an
insertion-ordered property map: assigning an existing key overwrites
its value in place, a new key is appended. -/
def objSet (k : String) (v : JsValue) : List (String × JsValue) → List (String × JsValue)
  | [] => [(k, v)]
  | (k2, v2) :: rest => if k2 = k then (k, v) :: rest else (k2, v2) :: objSet k v rest

/-- Property lookup on a row object. -/
def objGet (k : String) : List (String × JsValue) → Option JsValue
  | [] => none
  | (k2, v) :: rest => if k2 = k then some v else objGet k rest

/-- The `headers.forEach((header, index) => obj[header] =
values[index] || '')` loop of the page route, carried out from the
given index: each header name is assigned the field at its index, with
missing indices and empty fields both reading back as the empty
string. -/
def assignFields (values : List String) : List String → Nat → List (String × JsValue)
    → List (String × JsValue)
  | [], _, obj => obj
  | h :: hs, i, obj =>
    assignFields values hs (i + 1) (objSet h (JsValue.str (values.getD i "")) obj)

/-- The row-object construction of the page route (`csv.ts` lines
590-594): start from `_rowNumber`, then assign every header its field.
This projection is lossy: fields beyond the header's width are never
assigned, and duplicate header names collapse onto one property. -/
def buildRowObj (headers : List String) (rowNumber : Nat) (values : List String) :
    List (String × JsValue) :=
  assignFields values headers 0 [("_rowNumber", JsValue.num rowNumber)]

/-- The headers of the sqlite page path: the first header row's decoded
field array, or `[]` when the file has no header row. -/
def sqHeadersOf (m : SqliteMem) (fileId : Nat) : List String :=
  match sqFindHeaderRow m fileId with
  | some r => parseRowData r.rowData
  | none => []

/-- The headers of the file-database page path: the streamed log scan,
falling back to the lazily loaded cache when the scan found nothing. -/
def fdHeadersOf (logs : List (Nat × List StoredRow)) (fileId : Nat) : List String :=
  let streamed := fdStreamHeader ((alGet fileId logs).getD []) fileId
  if streamed.isEmpty then fdCacheHeader logs fileId else streamed

/-- The page payload of `GET /:id`: the `file.totalRows` field, the
decoded headers, the page rows projected into header-keyed objects,
and the pagination total (always the live count). -/
structure PageResp where
  fileTotalRows : Nat
  headers : List String
  data : List (List (String × JsValue))
  paginationTotalRows : Nat
deriving DecidableEq, Repr

/-- `GET /:id` (`csv.ts` lines 345-624): find the metadata in the SQL.js
store first, else in the file database (whose lookup ignores the user
check, as `FileDatabase.get` destructures only the id); read headers,
live count and the requested page from the backend where the metadata
was found; `file.totalRows` is the metadata `row_count` when non-zero,
else the live count.  Each page row is decoded and then projected into
a `_rowNumber`-plus-headers object by `buildRowObj`. -/
def getPageOp (d : Disk) (userId fileId page pageSize : Nat) : Option PageResp :=
  let offset := (page - 1) * pageSize
  match sqFindFile d.sqliteImage fileId userId with
  | some f =>
    let headers := sqHeadersOf d.sqliteImage fileId
    let total := sqCountDataRows d.sqliteImage fileId
    let rows := sqPageRows d.sqliteImage fileId pageSize offset
    some ⟨if f.rowCount ≠ 0 then f.rowCount else total, headers,
      rows.map (fun r => buildRowObj headers r.rowNumber (parseRowData r.rowData)), total⟩
  | none =>
    match alGet fileId d.filedbIndex with
    | none => none
    | some f =>
      let headers := fdHeadersOf d.logFiles fileId
      let total := fdLiveCount d.logFiles fileId
      let rows := fdStreamPage ((alGet fileId d.logFiles).getD []) fileId offset pageSize
      some ⟨if f.rowCount ≠ 0 then f.rowCount else total, headers,
        rows.map (fun r => buildRowObj headers r.rowNumber (parseRowData r.rowData)), total⟩

/-- The list routes' de-duplication, with the ids already kept: a
record survives exactly when it is the first occurrence of its id
(`index === self.findIndex(f => f.id === file.id)`). -/
def dedupByIdAux (seen : List Nat) : List CsvFileRec → List CsvFileRec
  | [] => []
  | f :: fs =>
    if f.id ∈ seen then dedupByIdAux seen fs
    else f :: dedupByIdAux (f.id :: seen) fs

/-- The list routes' de-duplication: keep the first record seen for
each id. -/
def dedupById (l : List CsvFileRec) : List CsvFileRec := dedupByIdAux [] l

/-- Newest-first comparison on upload dates, the `ORDER BY upload_date
DESC` used by the listing queries. -/
def newestFirst (a b : CsvFileRec) : Bool := b.uploadDate ≤ a.uploadDate

/-- `GET /list` (`csv.ts` lines 292-342): query both stores for the
user's files, merge, de-duplicate by id, and sort newest first. -/
def listOp (d : Disk) (userId : Nat) : List CsvFileRec :=
  let sq := sortByLe newestFirst (d.sqliteImage.csvFiles.filter (fun f => f.userId = userId))
  let fd := sortByLe newestFirst
    ((d.filedbIndex.map (fun p => p.2)).filter (fun f => f.userId = userId))
  sortByLe newestFirst (dedupById (sq ++ fd))

/-- `DELETE /:id` (`csv.ts` lines 969-1084): find the file among the
user's files from both stores (first occurrence per id); pick the
SQL.js store as target when it holds the id at all (probed without a
user check), else the file database; unlink the uploaded source file,
unlink the `.jsonl` log for file-database targets, then run the
`csv_data` and `csv_files` deletes against the target. -/
def deleteOp (d : Disk) (userId fileId : Nat) : Disk × Bool :=
  let allFiles :=
    d.sqliteImage.csvFiles.filter (fun f => f.userId = userId)
      ++ sortByLe newestFirst
          ((d.filedbIndex.map (fun p => p.2)).filter (fun f => f.userId = userId))
  match (dedupById allFiles).find? (fun f => f.id = fileId) with
  | none => (d, false)
  | some file =>
    let uploads := d.uploads.filter (fun fn => fn ≠ file.filename)
    match sqFindFileById d.sqliteImage fileId with
    | some _ =>
      (⟨sqDeleteFile (sqDeleteData d.sqliteImage fileId) fileId,
        d.filedbIndex, d.logFiles, uploads⟩, true)
    | none =>
      let f0 := FileMem.init d.filedbIndex (alErase fileId d.logFiles)
      let f1 := fdDeleteFile (fdDeleteData f0 fileId) fileId
      (⟨d.sqliteImage, f1.csvFiles, f1.logFiles, uploads⟩, true)

/-- `POST /upload` of the secondary route (`csv-optimized.ts` lines
46-118): whole-file parse against the global SQL.js database; only a
parse with no records at all is rejected as empty, the first record
otherwise always becomes the header. -/
def uploadOptimized (m : SqliteMem) (userId : Nat) (filename originalName : String)
    (now : Nat) (rows : List (List String)) : SqliteMem × UploadOutcome :=
  let m1 := sqInsertFile m userId filename originalName now
  match (m1.csvFiles.find? (fun f => f.filename = filename)).map (fun f => f.id) with
  | none => (m1, UploadOutcome.serverError)
  | some fileId =>
    match rows with
    | [] => (m1, UploadOutcome.emptyFileError)
    | header :: ds =>
      let m2 := sqInsertData m1 ⟨fileId, 0, jsonStringifyArray header, true⟩
      let m3 := (dataRows fileId 1 ds).foldl sqInsertData m2
      (sqUpdateRowCount m3 ds.length fileId, UploadOutcome.success fileId ds.length)

/-! ## `SqliteDatabase.run` and `save`

`db-manager.ts` lines 86-123: `run` throws when uninitialized, executes
the statement on the in-memory engine, then calls `save()` before
returning; `save` exports the full database image and writes it to the
database path in 100 MB chunks, the first chunk with flag `w`
(truncate), the rest with flag `a` (append). -/

/-- The mutating statements the application issues through
`SqliteDatabase.run`. -/
inductive SqlStmt where
  | insertFile (userId : Nat) (filename originalName : String) (now : Nat)
  | insertData (r : StoredRow)
  | updateRowCount (rowCount fileId : Nat)
  | deleteData (fileId : Nat)
  | deleteFile (fileId : Nat)
deriving DecidableEq, Repr

/-- Executing one statement on the in-memory engine. -/
def sqExec (m : SqliteMem) : SqlStmt → SqliteMem
  | SqlStmt.insertFile u fn orig now => sqInsertFile m u fn orig now
  | SqlStmt.insertData r => sqInsertData m r
  | SqlStmt.updateRowCount rc fid => sqUpdateRowCount m rc fid
  | SqlStmt.deleteData fid => sqDeleteData m fid
  | SqlStmt.deleteFile fid => sqDeleteFile m fid

/-- The `save()` chunk size: 100 MB. -/
def saveChunkSize : Nat := 100 * 1024 * 1024

/-- The `save()` write loop over the exported bytes: each iteration
writes one chunk of at most `saveChunkSize` bytes, the first with flag
`w` (replacing the file), the rest with flag `a` (appending). -/
def writeChunksAux (disk : List Nat) (first : Bool) (data : List Nat) : List Nat :=
  match data with
  | [] => disk
  | d :: ds =>
    writeChunksAux
      (if first then (d :: ds).take saveChunkSize else disk ++ (d :: ds).take saveChunkSize)
      false ((d :: ds).drop saveChunkSize)
termination_by data.length
decreasing_by
  simp only [List.length_drop, List.length_cons]
  have : 0 < saveChunkSize := by rw [saveChunkSize]; omega
  omega

/-- `save()` on a file previously holding `disk`: run the chunked write
loop over the exported image bytes. -/
def saveWrite (disk data : List Nat) : List Nat := writeChunksAux disk true data

/-- The wrapper state of a `SqliteDatabase`: the optional engine handle
and the last image persisted at the database path.  The export of the
engine is the opaque full-image snapshot, modelled as the table state
itself. -/
structure SqliteDb where
  db : Option SqliteMem
  persisted : Option SqliteMem
deriving DecidableEq, Repr

/-- `SqliteDatabase.run`: throw when not initialized; otherwise execute
the statement and synchronously persist the full image before
returning. -/
def SqliteDb.run (s : SqliteDb) (stmt : SqlStmt) : Except String SqliteDb :=
  match s.db with
  | none => Except.error "Database not initialized"
  | some m =>
    let m2 := sqExec m stmt
    Except.ok ⟨some m2, some m2⟩

/-! ## Id minting runs, for the uniqueness claim -/

/-- Inserts and deletes of `csv_files` records, the operations that
mint or retire ids. -/
inductive StoreOp where
  | ins (userId : Nat) (filename originalName : String) (now : Nat)
  | del (fileId : Nat)
deriving DecidableEq, Repr

/-- Run a sequence of operations against the SQL.js store, recording
the id minted by each insert. -/
def sqRunOps (m : SqliteMem) : List StoreOp → SqliteMem × List Nat
  | [] => (m, [])
  | StoreOp.ins u fn orig now :: ops =>
    let res := sqRunOps (sqInsertFile m u fn orig now) ops
    (res.1, m.nextFileId :: res.2)
  | StoreOp.del fid :: ops => sqRunOps (sqDeleteFile (sqDeleteData m fid) fid) ops

/-- Run a sequence of `csv_files` inserts against the file database,
recording the id minted by each (`csvFiles.size + 1`). -/
def fdRunInserts (m : FileMem) : List (Nat × String × String × Nat) → FileMem × List Nat
  | [] => (m, [])
  | (u, fn, orig, now) :: items =>
    let r := fdInsertFile m u fn orig now
    let res := fdRunInserts r.1 items
    (res.1, r.2 :: res.2)

/-! ## General lemmas about the embedded operations -/

/-- A key bound by a universal inequality is absent. -/
theorem alGet_eq_none {α : Type} (k : Nat) (l : List (Nat × α))
    (h : ∀ p ∈ l, p.1 ≠ k) : alGet k l = none := by
  induction l with
  | nil => rfl
  | cons p rest ih =>
    simp only [alGet]
    rw [if_neg (h p (List.mem_cons_self p rest))]
    exact ih (fun q hq => h q (List.mem_cons_of_mem p hq))

/-- `Map.set` on an absent key appends the new entry. -/
theorem alSet_fresh {α : Type} (k : Nat) (v : α) (l : List (Nat × α))
    (h : ∀ p ∈ l, p.1 ≠ k) : alSet k v l = l ++ [(k, v)] := by
  induction l with
  | nil => rfl
  | cons p rest ih =>
    simp only [alSet]
    rw [if_neg (h p (List.mem_cons_self p rest))]
    rw [ih (fun q hq => h q (List.mem_cons_of_mem p hq))]
    rfl

/-- Reading the key just written. -/
theorem alGet_set_self {α : Type} (k : Nat) (v : α) (l : List (Nat × α)) :
    alGet k (alSet k v l) = some v := by
  induction l with
  | nil => simp [alGet, alSet]
  | cons p rest ih =>
    by_cases h : p.1 = k
    · simp [alSet, alGet, h]
    · simp only [alSet, alGet]
      rw [if_neg h, alGet, if_neg h]
      exact ih

/-- Reading another key after a write. -/
theorem alGet_set_other {α : Type} (k k2 : Nat) (v : α) (l : List (Nat × α))
    (h : k ≠ k2) : alGet k2 (alSet k v l) = alGet k2 l := by
  induction l with
  | nil => simp [alGet, alSet, h]
  | cons p rest ih =>
    by_cases hp : p.1 = k
    · simp only [alSet, if_pos hp, alGet]
      rw [if_neg h, if_neg (fun hh => h (hp.symm.trans hh))]
    · simp only [alSet, if_neg hp, alGet]
      by_cases hp2 : p.1 = k2
      · rw [if_pos hp2, if_pos hp2]
      · rw [if_neg hp2, if_neg hp2]
        exact ih

/-- Erasing a key whose occurrences are unique removes it. -/
theorem alGet_erase_self {α : Type} (k : Nat) (l : List (Nat × α))
    (h : (l.map Prod.fst).Nodup) : alGet k (alErase k l) = none := by
  induction l with
  | nil => rfl
  | cons p rest ih =>
    simp only [List.map_cons, List.nodup_cons] at h
    by_cases hp : p.1 = k
    · simp only [alErase, if_pos hp]
      exact alGet_eq_none k rest (fun q hq => by
        intro hqk
        exact h.1 (hp ▸ hqk ▸ List.mem_map_of_mem Prod.fst hq))
    · simp only [alErase, if_neg hp, alGet, if_neg hp]
      exact ih h.2

/-- Erasing a key reads back `none` or an original entry elsewhere. -/
theorem alGet_erase_other {α : Type} (k k2 : Nat) (l : List (Nat × α))
    (h : k ≠ k2) : alGet k2 (alErase k l) = alGet k2 l := by
  induction l with
  | nil => rfl
  | cons p rest ih =>
    by_cases hp : p.1 = k
    · simp only [alErase, if_pos hp, alGet]
      rw [if_neg (hp ▸ h)]
    · simp only [alErase, if_neg hp, alGet]
      by_cases hp2 : p.1 = k2
      · rw [if_pos hp2, if_pos hp2]
      · rw [if_neg hp2, if_neg hp2]
        exact ih

/-- Inserting an element that precedes the head just conses it. -/
theorem insertSorted_cons_of_le {α : Type} (le : α → α → Bool) (x : α) (l : List α)
    (h : ∀ y ∈ l.head?, le x y = true) : insertSorted le x l = x :: l := by
  cases l with
  | nil => rfl
  | cons y ys =>
    simp only [insertSorted]
    rw [if_pos (h y rfl)]

/-- Insertion sort leaves an already sorted list unchanged. -/
theorem sortByLe_of_pairwise {α : Type} (le : α → α → Bool) (l : List α)
    (h : l.Pairwise (fun a b => le a b = true)) : sortByLe le l = l := by
  induction l with
  | nil => rfl
  | cons x l ih =>
    rw [List.pairwise_cons] at h
    show insertSorted le x (sortByLe le l) = x :: l
    rw [ih h.2]
    exact insertSorted_cons_of_le le x l (fun y hy => h.1 y (List.mem_of_mem_head? hy))

/-- Membership is preserved by sorted insertion. -/
theorem mem_insertSorted {α : Type} (le : α → α → Bool) (x a : α) (l : List α) :
    a ∈ insertSorted le x l ↔ a = x ∨ a ∈ l := by
  induction l with
  | nil => simp [insertSorted]
  | cons y ys ih =>
    simp only [insertSorted]
    by_cases h : le x y = true
    · rw [if_pos h]; exact List.mem_cons
    · rw [if_neg h]; simp only [List.mem_cons, ih]; tauto

/-- Sorting permutes: membership is unchanged. -/
theorem mem_sortByLe {α : Type} (le : α → α → Bool) (a : α) (l : List α) :
    a ∈ sortByLe le l ↔ a ∈ l := by
  induction l with
  | nil => simp [sortByLe]
  | cons x l ih =>
    show a ∈ insertSorted le x (sortByLe le l) ↔ _
    rw [mem_insertSorted, ih]
    exact (List.mem_cons).symm

/-- Every data-row insert carries the file id and a clear header flag. -/
theorem mem_dataRows (fid : Nat) : ∀ (s : Nat) (rs : List (List String)),
    ∀ r ∈ dataRows fid s rs, r.fileId = fid ∧ r.isHeader = false ∧ s ≤ r.rowNumber := by
  intro s rs
  induction rs generalizing s with
  | nil => intro r hr; simp [dataRows] at hr
  | cons rec rest ih =>
    intro r hr
    simp only [dataRows, List.mem_cons] at hr
    cases hr with
    | inl h => subst h; exact ⟨rfl, rfl, Nat.le_refl s⟩
    | inr h =>
      have := ih (s + 1) r h
      exact ⟨this.1, this.2.1, Nat.le_of_succ_le this.2.2⟩

/-- The data-row inserts are numbered in strictly increasing order. -/
theorem dataRows_pairwise (fid : Nat) : ∀ (s : Nat) (rs : List (List String)),
    (dataRows fid s rs).Pairwise (fun a b => a.rowNumber < b.rowNumber) := by
  intro s rs
  induction rs generalizing s with
  | nil => exact List.Pairwise.nil
  | cons rec rest ih =>
    rw [dataRows, List.pairwise_cons]
    refine ⟨fun b hb => ?_, ih (s + 1)⟩
    have := (mem_dataRows fid (s + 1) rest b hb).2.2
    exact Nat.lt_of_succ_le this

/-- The row numbers written for the data rows are `start, start+1, ...`. -/
theorem dataRows_map_rowNumber (fid : Nat) : ∀ (s : Nat) (rs : List (List String)),
    (dataRows fid s rs).map (fun r => r.rowNumber) = List.range' s rs.length := by
  intro s rs
  induction rs generalizing s with
  | nil => rfl
  | cons rec rest ih => simp [dataRows, List.range', ih (s + 1)]

/-- Number of data-row inserts. -/
theorem dataRows_length (fid : Nat) : ∀ (s : Nat) (rs : List (List String)),
    (dataRows fid s rs).length = rs.length := by
  intro s rs
  induction rs generalizing s with
  | nil => rfl
  | cons rec rest ih => simp [dataRows, ih (s + 1)]

/-- The expected decoded page: the original records paired with their
row numbers. -/
def expectedData (start : Nat) : List (List String) → List (Nat × List String)
  | [] => []
  | r :: rs => (start, r) :: expectedData (start + 1) rs

/-- Decoding a stored field array recovers the original record. -/
theorem parseRowData_stringify (fields : List String) :
    parseRowData (jsonStringifyArray fields) = fields := by
  rw [parseRowData, jsonParse_jsonStringify]

/-- Decoding the data-row inserts yields the original records, paired
with their row numbers. -/
theorem dataRows_map_decode (fid : Nat) : ∀ (s : Nat) (rs : List (List String)),
    (dataRows fid s rs).map (fun r => (r.rowNumber, parseRowData r.rowData))
      = expectedData s rs := by
  intro s rs
  induction rs generalizing s with
  | nil => rfl
  | cons rec rest ih =>
    simp only [dataRows, List.map_cons, expectedData, ih (s + 1)]
    rw [parseRowData_stringify]

/-- Batching invariant of the streaming parse: once past the header,
the inserts already issued followed by the rows still in the batch are
exactly the numbered data rows, whatever the batch size. -/
theorem ingest_foldl_inv (fid bs : Nat) (rows : List (List String)) :
    ∀ st : IngestState, st.isFirstRow = false →
      (rows.foldl (ingestStep fid bs) st).written ++ (rows.foldl (ingestStep fid bs) st).batch
          = st.written ++ st.batch ++ dataRows fid (st.rowCount + 1) rows
        ∧ (rows.foldl (ingestStep fid bs) st).rowCount = st.rowCount + rows.length
        ∧ (rows.foldl (ingestStep fid bs) st).isFirstRow = false := by
  induction rows with
  | nil => intro st h; simp [dataRows, h]
  | cons rec rest ih =>
    intro st h
    simp only [List.foldl_cons]
    have hstep : ingestStep fid bs st rec =
        if bs ≤ st.batch.length + 1 then
          ⟨false, st.rowCount + 1, [],
            st.written ++ (st.batch ++ [⟨fid, st.rowCount + 1, jsonStringifyArray rec, false⟩])⟩
        else
          ⟨false, st.rowCount + 1,
            st.batch ++ [⟨fid, st.rowCount + 1, jsonStringifyArray rec, false⟩], st.written⟩ := by
      rw [ingestStep, if_neg (by simp [h])]
      simp
    have hwb : (ingestStep fid bs st rec).written ++ (ingestStep fid bs st rec).batch
        = st.written ++ st.batch ++ [⟨fid, st.rowCount + 1, jsonStringifyArray rec, false⟩] := by
      rw [hstep]
      by_cases hb : bs ≤ st.batch.length + 1
      · rw [if_pos hb]; simp [List.append_assoc]
      · rw [if_neg hb]; simp [List.append_assoc]
    have hrc : (ingestStep fid bs st rec).rowCount = st.rowCount + 1 := by
      rw [hstep]
      by_cases hb : bs ≤ st.batch.length + 1
      · rw [if_pos hb]
      · rw [if_neg hb]
    have hfr : (ingestStep fid bs st rec).isFirstRow = false := by
      rw [hstep]
      by_cases hb : bs ≤ st.batch.length + 1
      · rw [if_pos hb]
      · rw [if_neg hb]
    have H := ih (ingestStep fid bs st rec) hfr
    refine ⟨?_, ?_, H.2.2⟩
    · rw [H.1, hrc, hwb]
      simp [dataRows, List.append_assoc]
    · rw [H.2.1, hrc]
      simp
      omega

/-- What the main upload route actually inserts for a non-empty parse:
the header row numbered 0 and flagged, then the data rows numbered
`1..N` in source order — independent of the batch size. -/
theorem ingestRun_written (fid bs : Nat) (hdr : List String) (rows : List (List String)) :
    (ingestRun fid bs (hdr :: rows)).written
        = ⟨fid, 0, jsonStringifyArray hdr, true⟩ :: dataRows fid 1 rows
      ∧ (ingestRun fid bs (hdr :: rows)).rowCount = rows.length := by
  rw [ingestRun, List.foldl_cons]
  have hfirst : ingestStep fid bs ⟨true, 0, [], []⟩ hdr
      = ⟨false, 0, [], [⟨fid, 0, jsonStringifyArray hdr, true⟩]⟩ := by
    rw [ingestStep]; rfl
  rw [hfirst]
  have := ingest_foldl_inv fid bs rows ⟨false, 0, [], [⟨fid, 0, jsonStringifyArray hdr, true⟩]⟩ rfl
  simp only [ingestComplete]
  constructor
  · have h1 := this.1
    simp only [List.append_nil] at h1 ⊢
    rw [h1]
    rfl
  · exact by simpa using this.2.1

/-- An empty parse issues no callbacks: nothing is written and the row
count stays 0 (the route then reports the empty-file failure). -/
theorem ingestRun_nil (fid bs : Nat) :
    ingestRun fid bs [] = ⟨true, 0, [], []⟩ := by
  rfl

/-- Folding `csv_data` inserts into the SQL.js image appends them to
the table in order. -/
theorem foldl_sqInsertData (l : List StoredRow) : ∀ m : SqliteMem,
    l.foldl sqInsertData m
      = { m with csvData := m.csvData ++ l } := by
  induction l with
  | nil => intro m; simp
  | cons r rest ih =>
    intro m
    rw [List.foldl_cons, ih]
    simp [sqInsertData, List.append_assoc]

/-- Folding `csv_data` inserts into a `FileDatabase` instance whose
pending buffer holds only this file's rows: the metadata index and the
logs are untouched, and the rows accumulate in the single pending
buffer (flushed later by `save`). -/
theorem foldl_fdInsertData (fid : Nat) : ∀ (l : List StoredRow), (∀ r ∈ l, r.fileId = fid) →
    ∀ (m : FileMem) (acc : List StoredRow), (alGet fid m.csvData).isSome →
      (m.pendingWrites = [] ∧ acc = [] ∨ m.pendingWrites = [(fid, acc)]) →
      let m2 := l.foldl fdInsertData m
      m2.csvFiles = m.csvFiles ∧ m2.logFiles = m.logFiles ∧
        (m2.pendingWrites = [] ∧ acc ++ l = [] ∨ m2.pendingWrites = [(fid, acc ++ l)]) := by
  intro l
  induction l with
  | nil =>
    intro _ m acc _ hpend
    simpa using hpend
  | cons r rest ih =>
    intro hall m acc hdata hpend
    have hrfid : r.fileId = fid := hall r (List.mem_cons_self r rest)
    simp only [List.foldl_cons]
    obtain ⟨fd, hfd⟩ := Option.isSome_iff_exists.mp hdata
    have hstep : fdInsertData m r = fdScheduleFlush
        { m with
          csvData := alSet r.fileId
            (if fd.length < maxMemoryRows then alSet r.rowNumber r fd
             else if fd.length = maxMemoryRows then [] else fd) m.csvData,
          pendingWrites := alSet r.fileId
            ((alGet r.fileId m.pendingWrites).getD [] ++ [r]) m.pendingWrites } := by
      rw [fdInsertData, hrfid, hfd]
    have hgetpend : (alGet r.fileId m.pendingWrites).getD [] = acc := by
      rw [hrfid]
      rcases hpend with ⟨h1, h2⟩ | h1
      · rw [h1, h2]; rfl
      · rw [h1]; simp [alGet]
    have hsetpend : alSet r.fileId ((alGet r.fileId m.pendingWrites).getD [] ++ [r]) m.pendingWrites
        = [(fid, acc ++ [r])] := by
      rw [hgetpend, hrfid]
      rcases hpend with ⟨h1, h2⟩ | h1
      · rw [h1]; rfl
      · rw [h1]; simp [alSet]
    rw [hstep, hsetpend]
    have hdata2 : (alGet fid (fdScheduleFlush
        { m with
          csvData := alSet r.fileId
            (if fd.length < maxMemoryRows then alSet r.rowNumber r fd
             else if fd.length = maxMemoryRows then [] else fd) m.csvData,
          pendingWrites := [(fid, acc ++ [r])] }).csvData).isSome := by
      rw [fdScheduleFlush]
      by_cases ht : m.writeTimerSet <;> simp [ht, hrfid, alGet_set_self]
    have hpend2 : (fdScheduleFlush
        { m with
          csvData := alSet r.fileId
            (if fd.length < maxMemoryRows then alSet r.rowNumber r fd
             else if fd.length = maxMemoryRows then [] else fd) m.csvData,
          pendingWrites := [(fid, acc ++ [r])] }).pendingWrites = [(fid, acc ++ [r])] := by
      rw [fdScheduleFlush]
      by_cases ht : m.writeTimerSet <;> simp [ht]
    have := ih (fun x hx => hall x (List.mem_cons_of_mem r hx)) _ (acc ++ [r]) hdata2
      (Or.inr hpend2)
    refine ⟨?_, ?_, ?_⟩
    · rw [this.1, fdScheduleFlush]
      by_cases ht : m.writeTimerSet <;> simp [ht]
    · rw [this.2.1, fdScheduleFlush]
      by_cases ht : m.writeTimerSet <;> simp [ht]
    · have h3 := this.2.2
      simpa [List.append_assoc] using h3

/-- After the first chunk, the write loop appends the remaining data
verbatim. -/
theorem writeChunksAux_false : ∀ (n : Nat) (data : List Nat), data.length ≤ n →
    ∀ disk, writeChunksAux disk false data = disk ++ data := by
  intro n
  induction n with
  | zero =>
    intro data h disk
    have hd : data = [] := List.length_eq_zero.mp (Nat.le_zero.mp h)
    subst hd
    simp [writeChunksAux]
  | succ n ih =>
    intro data h disk
    match data with
    | [] => simp [writeChunksAux]
    | d :: ds =>
      rw [writeChunksAux]
      have hcs : 0 < saveChunkSize := by rw [saveChunkSize]; omega
      have hlen : ((d :: ds).drop saveChunkSize).length ≤ n := by
        simp only [List.length_drop, List.length_cons]
        simp only [List.length_cons] at h
        omega
      rw [ih _ hlen]
      rw [if_neg (by simp), List.append_assoc, List.take_append_drop]

/-- The chunked `save()` write reproduces the full exported image on
disk, chunking notwithstanding. -/
theorem saveWrite_eq (disk : List Nat) (data : List Nat) (h : data ≠ []) :
    saveWrite disk data = data := by
  match data with
  | d :: ds =>
    rw [saveWrite, writeChunksAux]
    rw [writeChunksAux_false ((d :: ds).drop saveChunkSize).length _ (Nat.le_refl _)]
    rw [if_pos rfl]
    exact List.take_append_drop _ _


/-- Along any run against the SQL.js store, the autoincrement counter
bounds every minted id and minted ids strictly increase. -/
theorem sqRunOps_minted (ops : List StoreOp) : ∀ m : SqliteMem,
    (∀ x ∈ (sqRunOps m ops).2, m.nextFileId ≤ x)
      ∧ (sqRunOps m ops).2.Pairwise (fun a b => a < b) := by
  induction ops with
  | nil => intro m; simp [sqRunOps]
  | cons op ops ih =>
    intro m
    match op with
    | StoreOp.ins u fn orig now =>
      have hnext : (sqInsertFile m u fn orig now).nextFileId = m.nextFileId + 1 := rfl
      have H := ih (sqInsertFile m u fn orig now)
      rw [hnext] at H
      refine ⟨?_, ?_⟩
      · intro x hx
        simp only [sqRunOps, List.mem_cons] at hx
        cases hx with
        | inl h => exact h ▸ Nat.le_refl _
        | inr h => exact Nat.le_of_succ_le (H.1 x h)
      · simp only [sqRunOps]
        rw [List.pairwise_cons]
        exact ⟨fun x hx => Nat.lt_of_succ_le (H.1 x hx), H.2⟩
    | StoreOp.del fid =>
      have hnext : (sqDeleteFile (sqDeleteData m fid) fid).nextFileId = m.nextFileId := rfl
      have H := ih (sqDeleteFile (sqDeleteData m fid) fid)
      rw [hnext] at H
      exact ⟨H.1, H.2⟩

/-- A file-database insert on an index whose keys are bounded by its
size appends a fresh entry keyed and identified `size + 1`. -/
theorem fdInsertFile_wf (m : FileMem) (u : Nat) (fn orig : String) (now : Nat)
    (h : ∀ p ∈ m.csvFiles, p.1 ≤ m.csvFiles.length) :
    (fdInsertFile m u fn orig now).1.csvFiles
        = m.csvFiles ++ [(m.csvFiles.length + 1,
            ⟨m.csvFiles.length + 1, u, fn, orig, 0, now⟩)]
      ∧ (fdInsertFile m u fn orig now).2 = m.csvFiles.length + 1 := by
  refine ⟨?_, rfl⟩
  show alSet (m.csvFiles.length + 1) _ m.csvFiles = _
  exact alSet_fresh _ _ _ (fun p hp => by have := h p hp; omega)

/-- A deletion-free run of file-database inserts from a size-bounded
index mints the consecutive ids `size+1, size+2, ...`. -/
theorem fdRunInserts_minted (items : List (Nat × String × String × Nat)) :
    ∀ m : FileMem, (∀ p ∈ m.csvFiles, p.1 ≤ m.csvFiles.length) →
      (fdRunInserts m items).2 = List.range' (m.csvFiles.length + 1) items.length := by
  induction items with
  | nil => intro m h; simp [fdRunInserts]
  | cons item items ih =>
    intro m h
    obtain ⟨u, fn, orig, now⟩ := item
    have hw := fdInsertFile_wf m u fn orig now h
    have hlen : (fdInsertFile m u fn orig now).1.csvFiles.length = m.csvFiles.length + 1 := by
      rw [hw.1]; simp
    have hwf2 : ∀ p ∈ (fdInsertFile m u fn orig now).1.csvFiles,
        p.1 ≤ (fdInsertFile m u fn orig now).1.csvFiles.length := by
      intro p hp
      rw [hw.1] at hp
      rcases List.mem_append.mp hp with h1 | h1
      · rw [hlen]; exact Nat.le_succ_of_le (h p h1)
      · rw [hlen]
        have h2 : p.1 = m.csvFiles.length + 1 := by
          simp at h1
          rw [h1]
        omega
    simp only [fdRunInserts]
    rw [ih _ hwf2, hlen, hw.2]
    simp [List.range']


/-! ## Lemmas supporting the claim theorems -/

/-- De-duplication does not change the first record found for an id
that is not among the ids already kept. -/
theorem find?_dedupByIdAux (fid : Nat) : ∀ (l : List CsvFileRec) (seen : List Nat),
    fid ∉ seen →
    (dedupByIdAux seen l).find? (fun f => f.id = fid) = l.find? (fun f => f.id = fid) := by
  intro l
  induction l with
  | nil => intro seen h; rfl
  | cons f fs ih =>
    intro seen h
    rw [dedupByIdAux]
    by_cases hmem : f.id ∈ seen
    · rw [if_pos hmem]
      have hne : f.id ≠ fid := fun he => h (he ▸ hmem)
      rw [ih seen h, List.find?_cons_of_neg _ (by simpa using hne)]
    · rw [if_neg hmem]
      by_cases hf : f.id = fid
      · rw [List.find?_cons_of_pos _ (by simpa using hf),
          List.find?_cons_of_pos _ (by simpa using hf)]
      · rw [List.find?_cons_of_neg _ (by simpa using hf),
          List.find?_cons_of_neg _ (by simpa using hf)]
        exact ih (f.id :: seen) (by
          intro hx
          rcases List.mem_cons.mp hx with h1 | h1
          · exact hf h1.symm
          · exact h h1)

/-- De-duplication keeps first occurrences, so the first record found
for an id is unchanged. -/
theorem find?_dedupById (fid : Nat) (l : List CsvFileRec) :
    (dedupById l).find? (fun f => f.id = fid) = l.find? (fun f => f.id = fid) :=
  find?_dedupByIdAux fid l [] (by simp)

/-- When exactly one record satisfies a predicate, `find?` returns
it. -/
theorem find?_of_filter_singleton (p : CsvFileRec → Bool) (l : List CsvFileRec)
    (x : CsvFileRec) (h : l.filter p = [x]) : l.find? p = some x := by
  induction l with
  | nil => simp at h
  | cons f fs ih =>
    rw [List.filter_cons] at h
    by_cases hp : p f
    · rw [if_pos hp] at h
      rw [List.find?_cons_of_pos _ hp]
      exact congrArg some (List.cons_eq_cons.mp h).1
    · rw [if_neg hp] at h
      rw [List.find?_cons_of_neg _ hp]
      exact ih h

/-- The unique record with a given id, when owned by the user, is also
the first id match among the user's files. -/
theorem find_in_user_filter (l : List CsvFileRec) (rec : CsvFileRec) (fid u : Nat)
    (h : l.filter (fun f => f.id = fid) = [rec]) (hu : rec.userId = u) :
    (l.filter (fun f => f.userId = u)).find? (fun f => f.id = fid) = some rec := by
  induction l with
  | nil => simp at h
  | cons f fs ih =>
    rw [List.filter_cons] at h ⊢
    by_cases hid : f.id = fid
    · rw [if_pos (by simpa using hid)] at h
      have hfx : f = rec := (List.cons_eq_cons.mp h).1
      have hrest : fs.filter (fun f => f.id = fid) = [] := (List.cons_eq_cons.mp h).2
      subst hfx
      rw [if_pos (by simpa using hu)]
      rw [List.find?_cons_of_pos _ (by simpa using hid)]
    · rw [if_neg (by simpa using hid)] at h
      by_cases huser : f.userId = u
      · rw [if_pos (by simpa using huser)]
        rw [List.find?_cons_of_neg _ (by simpa using hid)]
        exact ih h
      · rw [if_neg (by simpa using huser)]
        exact ih h

/-- `find?` returns the record when it is a match and every match
equals it. -/
theorem find?_eq_some_of_unique (p : CsvFileRec → Bool) (l : List CsvFileRec)
    (rec : CsvFileRec) (hmem : rec ∈ l) (hp : p rec)
    (huniq : ∀ x ∈ l, p x → x = rec) : l.find? p = some rec := by
  induction l with
  | nil => simp at hmem
  | cons f fs ih =>
    by_cases hf : p f
    · rw [List.find?_cons_of_pos _ hf]
      exact congrArg some (huniq f (List.mem_cons_self f fs) hf)
    · rw [List.find?_cons_of_neg _ hf]
      rcases List.mem_cons.mp hmem with h1 | h1
      · exact absurd (h1 ▸ hp) hf
      · exact ih h1 (fun x hx hpx => huniq x (List.mem_cons_of_mem f hx) hpx)

/-- A successful lookup exhibits the entry. -/
theorem alGet_some_mem {α : Type} (k : Nat) (v : α) (l : List (Nat × α))
    (h : alGet k l = some v) : (k, v) ∈ l := by
  induction l with
  | nil => simp [alGet] at h
  | cons p rest ih =>
    rw [alGet] at h
    by_cases hp : p.1 = k
    · rw [if_pos hp] at h
      obtain ⟨a, b⟩ := p
      simp only at hp
      have hb : b = v := by simpa using h
      subst hp
      subst hb
      exact List.mem_cons_self _ _
    · rw [if_neg hp] at h
      exact List.mem_cons_of_mem _ (ih h)

/-- A failed lookup means no entry carries the key. -/
theorem alGet_none_forall {α : Type} (k : Nat) (l : List (Nat × α))
    (h : alGet k l = none) : ∀ p ∈ l, p.1 ≠ k := by
  induction l with
  | nil => intro p hp; simp at hp
  | cons q rest ih =>
    rw [alGet] at h
    by_cases hq : q.1 = k
    · rw [if_pos hq] at h; exact absurd h (by simp)
    · rw [if_neg hq] at h
      intro p hp
      rcases List.mem_cons.mp hp with h1 | h1
      · exact h1 ▸ hq
      · exact ih h p h1

/-- Erasing cannot re-introduce an absent key. -/
theorem alGet_erase_of_none {α : Type} (k : Nat) (l : List (Nat × α))
    (h : alGet k l = none) : alGet k (alErase k l) = none := by
  induction l with
  | nil => rfl
  | cons q rest ih =>
    rw [alGet] at h
    by_cases hq : q.1 = k
    · rw [if_pos hq] at h; exact absurd h (by simp)
    · rw [if_neg hq] at h
      rw [alErase, if_neg hq, alGet, if_neg hq]
      exact ih h

/-- After registering the metadata record, the id lookup by stored
filename always finds something (at least the record just inserted). -/
theorem sqFindIdByFilename_insert_isSome (m : SqliteMem) (u : Nat) (fn orig : String)
    (now : Nat) :
    (sqFindIdByFilename (sqInsertFile m u fn orig now) fn).isSome := by
  rw [sqFindIdByFilename, Option.isSome_iff_ne_none]
  intro h
  rw [List.max?_eq_none_iff, List.map_eq_nil_iff] at h
  have hmem : (⟨m.nextFileId, u, fn, orig, 0, now⟩ : CsvFileRec)
      ∈ (sqInsertFile m u fn orig now).csvFiles.filter (fun f => f.filename = fn) := by
    apply List.mem_filter.mpr
    refine ⟨?_, by simp⟩
    show _ ∈ m.csvFiles ++ [_]
    simp
  rw [h] at hmem
  simp at hmem

/-- The data-page filter keeps every data-row insert of the file. -/
theorem filter_dataRows (fid s : Nat) (rs : List (List String)) :
    (dataRows fid s rs).filter (fun r => r.fileId = fid ∧ ¬r.isHeader) = dataRows fid s rs := by
  rw [List.filter_eq_self]
  intro r hr
  have := mem_dataRows fid s rs r hr
  simp [this.1, this.2.1]

/-- `ORDER BY row_number` leaves the data-row inserts in place: they
are already in increasing order. -/
theorem sortByLe_dataRows (fid s : Nat) (rs : List (List String)) :
    sortByLe (fun a b => a.rowNumber ≤ b.rowNumber) (dataRows fid s rs)
      = dataRows fid s rs := by
  apply sortByLe_of_pairwise
  exact (dataRows_pairwise fid s rs).imp (fun h => by
    simp only [decide_eq_true_eq]
    exact Nat.le_of_lt h)

/-- On a table holding one header row and the numbered data rows, the
first page with a large enough limit is exactly the data rows. -/
theorem sqPageRows_header_data (m : SqliteMem) (fid psz : Nat) (hdrRow : StoredRow)
    (rows : List (List String)) (hh : hdrRow.isHeader = true)
    (hcsv : m.csvData = hdrRow :: dataRows fid 1 rows) (hlen : rows.length ≤ psz) :
    sqPageRows m fid psz 0 = dataRows fid 1 rows := by
  rw [sqPageRows, hcsv, List.filter_cons]
  rw [if_neg (by simp [hh])]
  rw [filter_dataRows, sortByLe_dataRows, List.drop_zero]
  rw [List.take_of_length_le (by rw [dataRows_length]; exact hlen)]

/-- The expected page objects under a well-formed header: `_rowNumber`
followed by each header paired with the row's field at the same
index. -/
def expectedObjs (hdr : List String) (start : Nat) :
    List (List String) → List (List (String × JsValue))
  | [] => []
  | r :: rs =>
    (("_rowNumber", JsValue.num start)
        :: (hdr.zip r).map (fun p => (p.1, JsValue.str p.2)))
      :: expectedObjs hdr (start + 1) rs

/-- The property list produced by the assignment loop when every header
is fresh: each header paired with the field at its running index. -/
def fieldPairs (values : List String) : List String → Nat → List (String × JsValue)
  | [], _ => []
  | h :: hs, i => (h, JsValue.str (values.getD i "")) :: fieldPairs values hs (i + 1)

/-- Assigning a property absent from the object appends it. -/
theorem objSet_fresh (k : String) (v : JsValue) (obj : List (String × JsValue))
    (h : ∀ p ∈ obj, p.1 ≠ k) : objSet k v obj = obj ++ [(k, v)] := by
  induction obj with
  | nil => rfl
  | cons p rest ih =>
    simp only [objSet]
    rw [if_neg (h p (List.mem_cons_self p rest))]
    rw [ih (fun q hq => h q (List.mem_cons_of_mem p hq))]
    rfl

/-- When the headers are distinct and none is already a property, the
assignment loop appends one property per header, in header order. -/
theorem assignFields_fresh (values : List String) : ∀ (hs : List String) (i : Nat)
    (obj : List (String × JsValue)), hs.Nodup → (∀ p ∈ obj, p.1 ∉ hs) →
    assignFields values hs i obj = obj ++ fieldPairs values hs i := by
  intro hs
  induction hs with
  | nil => intro i obj _ _; simp [assignFields, fieldPairs]
  | cons h hs ih =>
    intro i obj hnodup hfresh
    rw [List.nodup_cons] at hnodup
    rw [assignFields]
    rw [objSet_fresh h _ obj (fun p hp => fun he =>
      hfresh p hp (he ▸ List.mem_cons_self h hs))]
    rw [ih (i + 1) _ hnodup.2 ?fresh]
    case fresh =>
      intro p hp
      rcases List.mem_append.mp hp with h1 | h1
      · exact fun hin => hfresh p h1 (List.mem_cons_of_mem h hin)
      · simp at h1
        rw [h1]
        exact hnodup.1
    rw [List.append_assoc]
    rfl

/-- Under a duplicate-free header that does not shadow `_rowNumber`,
the row object is the row number followed by one property per
header. -/
theorem buildRowObj_eq (hdr : List String) (n : Nat) (values : List String)
    (hnodup : hdr.Nodup) (hrn : "_rowNumber" ∉ hdr) :
    buildRowObj hdr n values
      = ("_rowNumber", JsValue.num n) :: fieldPairs values hdr 0 := by
  rw [buildRowObj, assignFields_fresh values hdr 0 _ hnodup ?fresh]
  · rfl
  case fresh =>
    intro p hp
    simp at hp
    rw [hp]
    exact hrn

/-- With at least as many fields as headers past the running index, the
assignment pairs are the zip of the headers with the remaining
fields. -/
theorem fieldPairs_eq_zip (values : List String) : ∀ (hs : List String) (i : Nat),
    i + hs.length ≤ values.length →
    fieldPairs values hs i
      = ((hs.zip (values.drop i)).map (fun p => (p.1, JsValue.str p.2))) := by
  intro hs
  induction hs with
  | nil => intro i _; simp [fieldPairs]
  | cons h hs ih =>
    intro i hlen
    have hi : i < values.length := by simp at hlen; omega
    rw [fieldPairs, List.drop_eq_getElem_cons hi]
    rw [List.zip_cons_cons, List.map_cons]
    rw [ih (i + 1) (by simp at hlen ⊢; omega)]
    rw [List.getD_eq_getElem values "" hi]

/-- Decoding and object-projecting the data-row inserts of a
width-matching, duplicate-free upload yields the expected page
objects. -/
theorem dataRows_map_buildRowObj (hdr : List String) (fid : Nat)
    (hnodup : hdr.Nodup) (hrn : "_rowNumber" ∉ hdr) :
    ∀ (s : Nat) (rs : List (List String)), (∀ r ∈ rs, r.length = hdr.length) →
    (dataRows fid s rs).map (fun r => buildRowObj hdr r.rowNumber (parseRowData r.rowData))
      = expectedObjs hdr s rs := by
  intro s rs
  induction rs generalizing s with
  | nil => intro _; rfl
  | cons r rest ih =>
    intro hwidth
    simp only [dataRows, List.map_cons, expectedObjs]
    rw [List.cons_eq_cons]
    constructor
    · show buildRowObj hdr s (parseRowData (jsonStringifyArray r)) = _
      rw [parseRowData_stringify, buildRowObj_eq hdr s r hnodup hrn]
      rw [fieldPairs_eq_zip r hdr 0
        (by rw [hwidth r (List.mem_cons_self r rest)]; omega)]
      rw [List.drop_zero]
    · exact ih (s + 1) (fun x hx => hwidth x (List.mem_cons_of_mem r hx))

/-- Reading page 1 of a freshly ingested small file from the SQL.js
store returns the original header, and — when the header is
duplicate-free, does not shadow `_rowNumber`, and every row has the
header's width — the page objects carry the original records. -/
theorem sq_upload_page (u : Nat) (fn orig : String) (now rc psz : Nat)
    (hdr : List String) (rows : List (List String)) (ups : List String)
    (hnodup : hdr.Nodup) (hrn : "_rowNumber" ∉ hdr)
    (hwidth : ∀ r ∈ rows, r.length = hdr.length) (hlen : rows.length ≤ psz) :
    (getPageOp ⟨⟨2, [⟨1, u, fn, orig, rc, now⟩],
        ⟨1, 0, jsonStringifyArray hdr, true⟩ :: dataRows 1 1 rows⟩, [], [], ups⟩ u 1 1 psz).map
        PageResp.headers = some hdr
    ∧ (getPageOp ⟨⟨2, [⟨1, u, fn, orig, rc, now⟩],
        ⟨1, 0, jsonStringifyArray hdr, true⟩ :: dataRows 1 1 rows⟩, [], [], ups⟩ u 1 1 psz).map
        PageResp.data = some (expectedObjs hdr 1 rows) := by
  have hfile : sqFindFile (⟨2, [⟨1, u, fn, orig, rc, now⟩],
      ⟨1, 0, jsonStringifyArray hdr, true⟩ :: dataRows 1 1 rows⟩ : SqliteMem) 1 u
      = some ⟨1, u, fn, orig, rc, now⟩ := by
    simp [sqFindFile]
  have hhead : sqFindHeaderRow (⟨2, [⟨1, u, fn, orig, rc, now⟩],
      ⟨1, 0, jsonStringifyArray hdr, true⟩ :: dataRows 1 1 rows⟩ : SqliteMem) 1
      = some ⟨1, 0, jsonStringifyArray hdr, true⟩ := by
    simp [sqFindHeaderRow]
  have hheaders : sqHeadersOf (⟨2, [⟨1, u, fn, orig, rc, now⟩],
      ⟨1, 0, jsonStringifyArray hdr, true⟩ :: dataRows 1 1 rows⟩ : SqliteMem) 1 = hdr := by
    rw [sqHeadersOf, hhead]
    exact parseRowData_stringify hdr
  have hrows : sqPageRows (⟨2, [⟨1, u, fn, orig, rc, now⟩],
      ⟨1, 0, jsonStringifyArray hdr, true⟩ :: dataRows 1 1 rows⟩ : SqliteMem) 1 psz ((1 - 1) * psz)
      = dataRows 1 1 rows := by
    have h0 : (1 - 1) * psz = 0 := by omega
    rw [h0]
    exact sqPageRows_header_data _ 1 psz _ rows rfl rfl hlen
  rw [getPageOp, hfile]
  constructor
  · show some (sqHeadersOf (⟨2, [⟨1, u, fn, orig, rc, now⟩],
        ⟨1, 0, jsonStringifyArray hdr, true⟩ :: dataRows 1 1 rows⟩ : SqliteMem) 1) = some hdr
    rw [hheaders]
  · show some ((sqPageRows (⟨2, [⟨1, u, fn, orig, rc, now⟩],
        ⟨1, 0, jsonStringifyArray hdr, true⟩ :: dataRows 1 1 rows⟩ : SqliteMem) 1 psz
          ((1 - 1) * psz)).map (fun r => buildRowObj (sqHeadersOf (⟨2,
            [⟨1, u, fn, orig, rc, now⟩], ⟨1, 0, jsonStringifyArray hdr, true⟩
              :: dataRows 1 1 rows⟩ : SqliteMem) 1) r.rowNumber (parseRowData r.rowData)))
      = some (expectedObjs hdr 1 rows)
    rw [hheaders, hrows, dataRows_map_buildRowObj hdr 1 hnodup hrn 1 rows hwidth]


/-- Reading page 1 of a freshly ingested large file from the file
database returns the original header, and — under the same header and
width conditions — the page objects carry the original records. -/
theorem fd_upload_page (u : Nat) (fn orig : String) (now rc psz : Nat)
    (hdr : List String) (rows : List (List String)) (ups : List String)
    (hhdr : hdr ≠ []) (hnodup : hdr.Nodup) (hrn : "_rowNumber" ∉ hdr)
    (hwidth : ∀ r ∈ rows, r.length = hdr.length) (hlen : rows.length ≤ psz) :
    (getPageOp ⟨SqliteMem.empty, [(1, ⟨1, u, fn, orig, rc, now⟩)],
        [(1, ⟨1, 0, jsonStringifyArray hdr, true⟩ :: dataRows 1 1 rows)], ups⟩ u 1 1 psz).map
        PageResp.headers = some hdr
    ∧ (getPageOp ⟨SqliteMem.empty, [(1, ⟨1, u, fn, orig, rc, now⟩)],
        [(1, ⟨1, 0, jsonStringifyArray hdr, true⟩ :: dataRows 1 1 rows)], ups⟩ u 1 1 psz).map
        PageResp.data = some (expectedObjs hdr 1 rows) := by
  have hnofile : sqFindFile SqliteMem.empty 1 u = none := rfl
  have halget : alGet 1 [(1, (⟨1, u, fn, orig, rc, now⟩ : CsvFileRec))]
      = some ⟨1, u, fn, orig, rc, now⟩ := by simp [alGet]
  have hlog : (alGet 1 [(1, (⟨1, 0, jsonStringifyArray hdr, true⟩ : StoredRow)
      :: dataRows 1 1 rows)]).getD []
      = ⟨1, 0, jsonStringifyArray hdr, true⟩ :: dataRows 1 1 rows := by simp [alGet]
  have hstream : fdStreamHeader ((⟨1, 0, jsonStringifyArray hdr, true⟩ : StoredRow)
      :: dataRows 1 1 rows) 1 = hdr := by
    rw [fdStreamHeader, List.find?_cons_of_pos _ (by simp [jsonParse_jsonStringify])]
    show ((jsonParseStringArray (jsonStringifyArray hdr)).getD []) = hdr
    rw [jsonParse_jsonStringify]
    rfl
  have hheaders : fdHeadersOf [(1, (⟨1, 0, jsonStringifyArray hdr, true⟩ : StoredRow)
      :: dataRows 1 1 rows)] 1 = hdr := by
    rw [fdHeadersOf]
    simp only [hlog, hstream]
    rw [if_neg (by simp [List.isEmpty_eq_false, hhdr])]
  have hpage : fdStreamPage ((⟨1, 0, jsonStringifyArray hdr, true⟩ : StoredRow)
      :: dataRows 1 1 rows) 1 ((1 - 1) * psz) psz = dataRows 1 1 rows := by
    have h0 : (1 - 1) * psz = 0 := by omega
    rw [fdStreamPage, h0, List.filter_cons, if_neg (by simp)]
    rw [filter_dataRows, List.drop_zero]
    rw [List.take_of_length_le (by rw [dataRows_length]; exact hlen)]
  rw [getPageOp, hnofile, halget]
  constructor
  · show some (fdHeadersOf [(1, (⟨1, 0, jsonStringifyArray hdr, true⟩ : StoredRow)
        :: dataRows 1 1 rows)] 1) = some hdr
    rw [hheaders]
  · show some ((fdStreamPage ((alGet 1 [(1, (⟨1, 0, jsonStringifyArray hdr, true⟩ : StoredRow)
        :: dataRows 1 1 rows)]).getD []) 1 ((1 - 1) * psz) psz).map
        (fun r => buildRowObj (fdHeadersOf [(1, (⟨1, 0, jsonStringifyArray hdr, true⟩ : StoredRow)
          :: dataRows 1 1 rows)] 1) r.rowNumber (parseRowData r.rowData)))
      = some (expectedObjs hdr 1 rows)
    rw [hheaders, hlog, hpage, dataRows_map_buildRowObj hdr 1 hnodup hrn 1 rows hwidth]

/-- Flushing an instance whose only pending buffer belongs to one file
writes that buffer to the file's log and leaves the index alone. -/
theorem fdSave_single (m : FileMem) (w : List StoredRow) (hw2 : w ≠ [])
    (hpend : m.pendingWrites = [(1, w)]) (hlog : m.logFiles = []) :
    (fdSave m).csvFiles = m.csvFiles ∧ (fdSave m).logFiles = [(1, w)] := by
  match w, hw2 with
  | x :: xs, _ =>
    rw [fdSave, hpend]
    simp only [List.map_cons, List.map_nil, List.foldl_cons, List.foldl_nil]
    have h1 : fdFlushFile m 1 = { m with
        logFiles := alSet 1 ((alGet 1 m.logFiles).getD [] ++ (x :: xs)) m.logFiles,
        pendingWrites := alErase 1 m.pendingWrites } := by
      rw [fdFlushFile, hpend]
      simp [alGet]
    rw [h1]
    refine ⟨rfl, ?_⟩
    show alSet 1 ((alGet 1 m.logFiles).getD [] ++ (x :: xs)) m.logFiles = _
    rw [hlog]
    rfl

/-! ## The claims -/

/-- Claim C1 is false as stated: the page route projects each decoded
row into a header-keyed object (`obj[header] = values[index] || ''`),
so a row wider than the header loses its extra fields — header `["a"]`
with data row `["x", "y"]` uploads successfully but pages back as an
object holding only `"x"` — and duplicate header names collapse onto
one property: header `["a", "a"]` with row `["x", "y"]` pages back
with the single property `a = "y"`, losing `"x"`. -/
theorem claim_C1_counterexample :
    (uploadOp Disk.empty 7 "x_1.csv" "x.csv" 1 100 [["a"], ["x", "y"]]).2
        = UploadOutcome.success 1 1
    ∧ (getPageOp (uploadOp Disk.empty 7 "x_1.csv" "x.csv" 1 100 [["a"], ["x", "y"]]).1
        7 1 1 10).map PageResp.data
        = some [[("_rowNumber", JsValue.num 1), ("a", JsValue.str "x")]]
    ∧ (uploadOp Disk.empty 7 "d_1.csv" "d.csv" 1 100 [["a", "a"], ["x", "y"]]).2
        = UploadOutcome.success 1 1
    ∧ (getPageOp (uploadOp Disk.empty 7 "d_1.csv" "d.csv" 1 100 [["a", "a"], ["x", "y"]]).1
        7 1 1 10).map PageResp.data
        = some [[("_rowNumber", JsValue.num 1), ("a", JsValue.str "y")]] := by
  refine ⟨?_, ?_, ?_, ?_⟩ <;> decide

/-- Claim C1 (amended): for every CSV input whose non-empty header has
no duplicate names and no column named `_rowNumber`, and whose data
rows all have exactly the header's width, ingesting it and paginating
with `pageSize ≥ N + 1` reproduces the original field values of every
row exactly — embedded newlines, commas and quotes included — in the
response's header-keyed objects, on whichever backend the declared
size selects; rows wider than the header lose their extra fields and
duplicate headers collapse (see the counterexample).  The stored
`row_data` encoding itself is always the JSON field array, whose
decoding recovers the exact fields (hence length-preserving and never
comma-joined): the loss occurs only in the response's object
projection. -/
theorem claim_C1_amended (hdr : List String) (rows : List (List String))
    (sizeMB : ℚ) (u : Nat) (fn orig : String) (now pageSize : Nat)
    (hhdr : hdr ≠ []) (hnodup : hdr.Nodup) (hrn : "_rowNumber" ∉ hdr)
    (hwidth : ∀ r ∈ rows, r.length = hdr.length) (hps : rows.length + 1 ≤ pageSize) :
    ((getPageOp (uploadOp Disk.empty u fn orig sizeMB now (hdr :: rows)).1 u 1 1 pageSize).map
        PageResp.headers = some hdr)
    ∧ ((getPageOp (uploadOp Disk.empty u fn orig sizeMB now (hdr :: rows)).1 u 1 1 pageSize).map
        PageResp.data = some (expectedObjs hdr 1 rows))
    ∧ (∀ fields : List String, jsonParseStringArray (jsonStringifyArray fields) = some fields) := by
  have hlen : rows.length ≤ pageSize := by omega
  have hw := ingestRun_written 1 100000 hdr rows
  cases hsel : selectDatabase sizeMB with
  | sqlite =>
    have hfind : sqFindIdByFilename (sqInsertFile Disk.empty.sqliteImage u fn orig now) fn
        = some 1 := by
      simp [sqFindIdByFilename, sqInsertFile, Disk.empty, SqliteMem.empty, List.filter]
    have hup : (uploadOp Disk.empty u fn orig sizeMB now (hdr :: rows)).1
        = ⟨⟨2, [⟨1, u, fn, orig, rows.length, now⟩],
            ⟨1, 0, jsonStringifyArray hdr, true⟩ :: dataRows 1 1 rows⟩, [], [], [fn]⟩ := by
      simp only [uploadOp, hsel, hfind]
      cases rows with
      | nil =>
        rw [if_pos (by simpa using hw.2)]
        rw [foldl_sqInsertData]
        simp [Disk.empty, SqliteMem.empty, sqInsertFile, hw.1]
      | cons r0 rs =>
        rw [if_neg (by rw [hw.2]; simp)]
        rw [foldl_sqInsertData]
        simp [Disk.empty, SqliteMem.empty, sqInsertFile, sqUpdateRowCount, hw.1, hw.2]
    rw [hup]
    have H := sq_upload_page u fn orig now rows.length pageSize hdr rows [fn]
      hnodup hrn hwidth hlen
    exact ⟨H.1, H.2, fun fields => jsonParse_jsonStringify fields⟩
  | filedb =>
    have hins : fdInsertFile (FileMem.init Disk.empty.filedbIndex Disk.empty.logFiles)
        u fn orig now
        = (⟨[(1, ⟨1, u, fn, orig, 0, now⟩)], [(1, [])], [], false, []⟩, 1) := by
      simp [fdInsertFile, FileMem.init, Disk.empty, alSet]
    have hall : ∀ r ∈ (ingestRun 1 100000 (hdr :: rows)).written, r.fileId = 1 := by
      rw [hw.1]
      intro r hr
      rcases List.mem_cons.mp hr with h1 | h1
      · rw [h1]
      · exact (mem_dataRows 1 1 rows r h1).1
    have hfold := foldl_fdInsertData 1 (ingestRun 1 100000 (hdr :: rows)).written hall
      ⟨[(1, ⟨1, u, fn, orig, 0, now⟩)], [(1, [])], [], false, []⟩ []
      (by simp [alGet]) (Or.inl ⟨rfl, rfl⟩)
    have hwne : (ingestRun 1 100000 (hdr :: rows)).written ≠ [] := by
      rw [hw.1]
      exact List.cons_ne_nil _ _
    have hpend2 : ((ingestRun 1 100000 (hdr :: rows)).written.foldl fdInsertData
        ⟨[(1, ⟨1, u, fn, orig, 0, now⟩)], [(1, [])], [], false, []⟩).pendingWrites
        = [(1, (ingestRun 1 100000 (hdr :: rows)).written)] := by
      rcases hfold.2.2 with ⟨_, habs⟩ | h1
      · exact absurd (by simpa using habs) hwne
      · simpa using h1
    have hsave := fdSave_single
      ((ingestRun 1 100000 (hdr :: rows)).written.foldl fdInsertData
        ⟨[(1, ⟨1, u, fn, orig, 0, now⟩)], [(1, [])], [], false, []⟩)
      (ingestRun 1 100000 (hdr :: rows)).written hwne hpend2 (by rw [hfold.2.1])
    have hcf : (fdSave ((ingestRun 1 100000 (hdr :: rows)).written.foldl fdInsertData
        ⟨[(1, ⟨1, u, fn, orig, 0, now⟩)], [(1, [])], [], false, []⟩)).csvFiles
        = [(1, ⟨1, u, fn, orig, 0, now⟩)] := by
      rw [hsave.1, hfold.1]
    have hup : (uploadOp Disk.empty u fn orig sizeMB now (hdr :: rows)).1
        = ⟨SqliteMem.empty, [(1, ⟨1, u, fn, orig, rows.length, now⟩)],
            [(1, ⟨1, 0, jsonStringifyArray hdr, true⟩ :: dataRows 1 1 rows)], [fn]⟩ := by
      simp only [uploadOp, hsel, hins]
      cases rows with
      | nil =>
        rw [if_pos (by simpa using hw.2)]
        simp only []
        rw [hcf, hsave.2, hw.1]
        rfl
      | cons r0 rs =>
        rw [if_neg (by rw [hw.2]; simp)]
        simp only []
        have hupd : fdUpdateRowCount (fdSave ((ingestRun 1 100000 (hdr :: r0 :: rs)).written.foldl
            fdInsertData ⟨[(1, ⟨1, u, fn, orig, 0, now⟩)], [(1, [])], [], false, []⟩))
            (ingestRun 1 100000 (hdr :: r0 :: rs)).rowCount 1
            = { (fdSave ((ingestRun 1 100000 (hdr :: r0 :: rs)).written.foldl
                fdInsertData ⟨[(1, ⟨1, u, fn, orig, 0, now⟩)], [(1, [])], [], false, []⟩)) with
                csvFiles := [(1, ⟨1, u, fn, orig, (r0 :: rs).length, now⟩)] } := by
          rw [fdUpdateRowCount, hcf]
          simp [alGet, alSet, hw.2]
        rw [hupd]
        simp only []
        rw [hsave.2, hw.1]
        rfl
    rw [hup]
    have H := fd_upload_page u fn orig now rows.length pageSize hdr rows [fn]
      hhdr hnodup hrn hwidth hlen
    exact ⟨H.1, H.2, fun fields => jsonParse_jsonStringify fields⟩




/-- Concrete instance of the amended C1: a three-record CSV with an
embedded comma, newline and quote survives upload and pagination
exactly. -/
theorem claim_C1_witness :
    ((getPageOp (uploadOp Disk.empty 7 "c_1.csv" "c.csv" 1 100
        [["name", "age"], ["Alice", "30"], ["Bob, Jr.", "2\n\"5\""]]).1 7 1 1 10).map
        PageResp.headers = some ["name", "age"])
    ∧ ((getPageOp (uploadOp Disk.empty 7 "c_1.csv" "c.csv" 1 100
        [["name", "age"], ["Alice", "30"], ["Bob, Jr.", "2\n\"5\""]]).1 7 1 1 10).map
        PageResp.data
        = some (expectedObjs ["name", "age"] 1 [["Alice", "30"], ["Bob, Jr.", "2\n\"5\""]])) := by
  have H := claim_C1_amended ["name", "age"]
    [["Alice", "30"], ["Bob, Jr.", "2\n\"5\""]] 1 7 "c_1.csv" "c.csv" 100 10
    (by decide) (by decide) (by decide) (by decide) (by decide)
  exact ⟨H.1, H.2.1⟩

/-- Claim C2: `selectDatabase` routes sizes at most 50 MB to the SQL.js
record store and sizes above 50 MB to the streamed file store; in
particular 49 and 50 select the record store and 51 the file store. -/
theorem claim_C2_selectDatabase_threshold :
    (∀ s : ℚ, s ≤ 50 → selectDatabase s = DbType.sqlite)
    ∧ (∀ s : ℚ, 50 < s → selectDatabase s = DbType.filedb)
    ∧ selectDatabase 49 = DbType.sqlite
    ∧ selectDatabase 50 = DbType.sqlite
    ∧ selectDatabase 51 = DbType.filedb := by
  refine ⟨fun s h => ?_, fun s h => ?_, by decide, by decide, by decide⟩
  · rw [selectDatabase, if_pos h]
  · rw [selectDatabase, if_neg (not_le.mpr h)]

/-- Concrete instance of the C2 boundary values. -/
theorem claim_C2_witness :
    selectDatabase 49 = DbType.sqlite ∧ selectDatabase 51 = DbType.filedb :=
  ⟨claim_C2_selectDatabase_threshold.1 49 (by norm_num),
   claim_C2_selectDatabase_threshold.2.1 51 (by norm_num)⟩

/-- Claim C3 is false as stated: from an empty deployment, a small
upload and a large upload both mint id 1 (one per store); and within
the file database alone, after inserting files 1 and 2 and deleting
file 1, the next insert mints id 2 while file 2 still exists. -/
theorem claim_C3_counterexample :
    (uploadOp Disk.empty 7 "a_1.csv" "a.csv" 1 100 [["h"], ["x"]]).2
        = UploadOutcome.success 1 1
    ∧ (uploadOp (uploadOp Disk.empty 7 "a_1.csv" "a.csv" 1 100 [["h"], ["x"]]).1
          7 "b_1.csv" "b.csv" 2000 101 [["h"], ["y"]]).2
        = UploadOutcome.success 1 1
    ∧ (fdRunInserts (FileMem.init [] [])
          [(7, "x1.csv", "x1.csv", 1), (7, "x2.csv", "x2.csv", 2)]).2 = [1, 2]
    ∧ (fdInsertFile (fdDeleteFile (fdRunInserts (FileMem.init [] [])
          [(7, "x1.csv", "x1.csv", 1), (7, "x2.csv", "x2.csv", 2)]).1 1)
          7 "x3.csv" "x3.csv" 3).2 = 2
    ∧ alGet 2 (fdDeleteFile (fdRunInserts (FileMem.init [] [])
          [(7, "x1.csv", "x1.csv", 1), (7, "x2.csv", "x2.csv", 2)]).1 1).csvFiles
        = some ⟨2, 7, "x2.csv", "x2.csv", 0, 2⟩ := by
  refine ⟨?_, ?_, ?_, ?_, ?_⟩ <;> decide

/-- Claim C3 (amended): the two stores mint ids independently, so ids
are not unique across their union and the file database can re-mint a
live id after a deletion; what does hold is that the record store's
autoincrement ids are distinct along any run, and a deletion-free run
of file-database inserts from a size-bounded index mints the distinct
consecutive ids `size+1, size+2, ...`. -/
theorem claim_C3_amended (ops : List StoreOp) (m : SqliteMem)
    (items : List (Nat × String × String × Nat)) (fm : FileMem)
    (hwf : ∀ p ∈ fm.csvFiles, p.1 ≤ fm.csvFiles.length) :
    (sqRunOps m ops).2.Nodup
    ∧ (fdRunInserts fm items).2 = List.range' (fm.csvFiles.length + 1) items.length
    ∧ (fdRunInserts fm items).2.Nodup := by
  refine ⟨?_, fdRunInserts_minted items fm hwf, ?_⟩
  · exact ((sqRunOps_minted ops m).2).imp (fun h => Nat.ne_of_lt h)
  · rw [fdRunInserts_minted items fm hwf]
    exact List.nodup_range' _ _

/-- Concrete instance of the amended C3 statement. -/
theorem claim_C3_amended_witness :
    (sqRunOps SqliteMem.empty
        [StoreOp.ins 7 "a.csv" "a.csv" 1, StoreOp.del 1,
         StoreOp.ins 7 "b.csv" "b.csv" 2]).2.Nodup
    ∧ (fdRunInserts (FileMem.init [] [])
        [(7, "x.csv", "x.csv", 1), (7, "y.csv", "y.csv", 2)]).2 = List.range' 1 2
    ∧ (fdRunInserts (FileMem.init [] [])
        [(7, "x.csv", "x.csv", 1), (7, "y.csv", "y.csv", 2)]).2.Nodup :=
  claim_C3_amended
    [StoreOp.ins 7 "a.csv" "a.csv" 1, StoreOp.del 1, StoreOp.ins 7 "b.csv" "b.csv" 2]
    SqliteMem.empty [(7, "x.csv", "x.csv", 1), (7, "y.csv", "y.csv", 2)]
    (FileMem.init [] []) (by intro p hp; simp [FileMem.init] at hp)

/-- Claim C4 is false as stated: after a small and a large upload that
both minted id 1, deleting file 1 reports success, yet `getPage` for
id 1 still finds a file (the file-database copy survives). -/
theorem claim_C4_counterexample :
    (deleteOp (uploadOp (uploadOp Disk.empty 7 "a_1.csv" "a.csv" 1 100 [["h"], ["x"]]).1
        7 "b_1.csv" "b.csv" 2000 101 [["h"], ["y"]]).1 7 1).2 = true
    ∧ (getPageOp (deleteOp (uploadOp (uploadOp Disk.empty 7 "a_1.csv" "a.csv" 1 100
        [["h"], ["x"]]).1 7 "b_1.csv" "b.csv" 2000 101 [["h"], ["y"]]).1 7 1).1
        7 1 1 10).isSome = true := by
  refine ⟨?_, ?_⟩ <;> decide

/-- Claim C4 (amended): provided the fileId lives in exactly one of the
two stores, deleting it removes the metadata record, the row data (the
embedded rows, or the `.jsonl` log), and the uploaded source file, and
every later `getPage` for that id returns NotFound; when the same id
exists in both stores the route only deletes the record-store copy
(see the counterexample). -/
theorem claim_C4_amended (d : Disk) (u fid : Nat) (rec : CsvFileRec)
    (hid : rec.id = fid) (hu : rec.userId = u) :
    ((d.sqliteImage.csvFiles.filter (fun f => f.id = fid) = [rec]) →
     (∀ p ∈ d.filedbIndex, p.1 ≠ fid ∧ p.2.id ≠ fid) →
      (deleteOp d u fid).2 = true
      ∧ (∀ f ∈ (deleteOp d u fid).1.sqliteImage.csvFiles, f.id ≠ fid)
      ∧ (∀ r ∈ (deleteOp d u fid).1.sqliteImage.csvData, r.fileId ≠ fid)
      ∧ rec.filename ∉ (deleteOp d u fid).1.uploads
      ∧ (∀ u2 page psz : Nat, getPageOp (deleteOp d u fid).1 u2 fid page psz = none))
    ∧ ((alGet fid d.filedbIndex = some rec) →
       (∀ p ∈ d.filedbIndex, p.2.id = fid → p = (fid, rec)) →
       ((d.filedbIndex.map Prod.fst).Nodup) →
       ((d.logFiles.map Prod.fst).Nodup) →
       (∀ f ∈ d.sqliteImage.csvFiles, f.id ≠ fid) →
      (deleteOp d u fid).2 = true
      ∧ alGet fid (deleteOp d u fid).1.filedbIndex = none
      ∧ alGet fid (deleteOp d u fid).1.logFiles = none
      ∧ rec.filename ∉ (deleteOp d u fid).1.uploads
      ∧ (∀ u2 page psz : Nat, getPageOp (deleteOp d u fid).1 u2 fid page psz = none)) := by
  constructor
  · intro hfilter hfd
    have hsqfind : (d.sqliteImage.csvFiles.filter (fun f => f.userId = u)).find?
        (fun f => f.id = fid) = some rec :=
      find_in_user_filter _ rec fid u hfilter hu
    have hallfind : (dedupById (d.sqliteImage.csvFiles.filter (fun f => f.userId = u)
        ++ sortByLe newestFirst ((d.filedbIndex.map (fun p => p.2)).filter
            (fun f => f.userId = u)))).find? (fun f => f.id = fid) = some rec := by
      rw [find?_dedupById, List.find?_append, hsqfind]
      rfl
    have hbyid : sqFindFileById d.sqliteImage fid = some rec := by
      rw [sqFindFileById]
      exact find?_of_filter_singleton _ _ _ hfilter
    have hdel : deleteOp d u fid
        = (⟨sqDeleteFile (sqDeleteData d.sqliteImage fid) fid, d.filedbIndex, d.logFiles,
            d.uploads.filter (fun fn => fn ≠ rec.filename)⟩, true) := by
      simp only [deleteOp, hallfind, hbyid]
    rw [hdel]
    refine ⟨rfl, ?_, ?_, ?_, ?_⟩
    · intro f hf
      have := (List.mem_filter.mp hf).2
      simpa using this
    · intro r hr
      have := (List.mem_filter.mp hr).2
      simpa using this
    · intro hmem
      have := (List.mem_filter.mp hmem).2
      simp at this
    · intro u2 page psz
      have h1 : sqFindFile (sqDeleteFile (sqDeleteData d.sqliteImage fid) fid) fid u2 = none := by
        rw [sqFindFile, List.find?_eq_none]
        intro f hf
        have := (List.mem_filter.mp hf).2
        simp at this ⊢
        intro he
        exact absurd he this
      have h2 : alGet fid d.filedbIndex = none :=
        alGet_eq_none fid _ (fun p hp => (hfd p hp).1)
      rw [getPageOp, h1, h2]
  · intro halget huniq hnodupidx hnoduplog hsq
    have hmem_pair : (fid, rec) ∈ d.filedbIndex := alGet_some_mem _ _ _ halget
    have hrecmem : rec ∈ sortByLe newestFirst
        ((d.filedbIndex.map (fun p => p.2)).filter (fun f => f.userId = u)) := by
      rw [mem_sortByLe]
      exact List.mem_filter.mpr
        ⟨List.mem_map.mpr ⟨(fid, rec), hmem_pair, rfl⟩, by simpa using hu⟩
    have hfdfind : (sortByLe newestFirst ((d.filedbIndex.map (fun p => p.2)).filter
        (fun f => f.userId = u))).find? (fun f => f.id = fid) = some rec := by
      apply find?_eq_some_of_unique _ _ rec hrecmem (by simpa using hid)
      intro x hx hpx
      rw [mem_sortByLe] at hx
      obtain ⟨p, hp, hpe⟩ := List.mem_map.mp (List.mem_filter.mp hx).1
      have hpr := huniq p hp (by rw [hpe]; simpa using hpx)
      rw [← hpe, hpr]
    have hsqfindnone : (d.sqliteImage.csvFiles.filter (fun f => f.userId = u)).find?
        (fun f => f.id = fid) = none := by
      rw [List.find?_eq_none]
      intro x hx
      simpa using hsq x (List.mem_filter.mp hx).1
    have hallfind : (dedupById (d.sqliteImage.csvFiles.filter (fun f => f.userId = u)
        ++ sortByLe newestFirst ((d.filedbIndex.map (fun p => p.2)).filter
            (fun f => f.userId = u)))).find? (fun f => f.id = fid) = some rec := by
      rw [find?_dedupById, List.find?_append, hsqfindnone, hfdfind]
      rfl
    have hbyid : sqFindFileById d.sqliteImage fid = none := by
      rw [sqFindFileById, List.find?_eq_none]
      intro x hx
      simpa using hsq x hx
    have hdel : deleteOp d u fid
        = (⟨d.sqliteImage, alErase fid d.filedbIndex,
            alErase fid (alErase fid d.logFiles),
            d.uploads.filter (fun fn => fn ≠ rec.filename)⟩, true) := by
      simp only [deleteOp, hallfind, hbyid]
      rfl
    rw [hdel]
    have hlognone : alGet fid (alErase fid (alErase fid d.logFiles)) = none :=
      alGet_erase_of_none fid _ (alGet_erase_self fid _ hnoduplog)
    refine ⟨rfl, alGet_erase_self fid _ hnodupidx, hlognone, ?_, ?_⟩
    · intro hmem
      have := (List.mem_filter.mp hmem).2
      simp at this
    · intro u2 page psz
      have h1 : sqFindFile d.sqliteImage fid u2 = none := by
        rw [sqFindFile, List.find?_eq_none]
        intro f hf
        simp only [decide_eq_true_eq, not_and]
        intro he
        exact absurd he (hsq f hf)
      rw [getPageOp, h1, alGet_erase_self fid _ hnodupidx]

/-- Concrete instance of both cases of the amended C4 statement. -/
theorem claim_C4_amended_witness :
    (deleteOp ⟨⟨2, [⟨1, 7, "a.csv", "a.csv", 1, 5⟩], [⟨1, 0, "hh", true⟩]⟩, [], [],
        ["a.csv"]⟩ 7 1).2 = true
    ∧ getPageOp (deleteOp ⟨⟨2, [⟨1, 7, "a.csv", "a.csv", 1, 5⟩], [⟨1, 0, "hh", true⟩]⟩,
        [], [], ["a.csv"]⟩ 7 1).1 7 1 1 10 = none
    ∧ (deleteOp ⟨SqliteMem.empty, [(1, ⟨1, 7, "b.csv", "b.csv", 1, 5⟩)],
        [(1, [⟨1, 0, "hh", true⟩])], ["b.csv"]⟩ 7 1).2 = true
    ∧ alGet 1 (deleteOp ⟨SqliteMem.empty, [(1, ⟨1, 7, "b.csv", "b.csv", 1, 5⟩)],
        [(1, [⟨1, 0, "hh", true⟩])], ["b.csv"]⟩ 7 1).1.filedbIndex = none
    ∧ getPageOp (deleteOp ⟨SqliteMem.empty, [(1, ⟨1, 7, "b.csv", "b.csv", 1, 5⟩)],
        [(1, [⟨1, 0, "hh", true⟩])], ["b.csv"]⟩ 7 1).1 7 1 1 10 = none := by
  have HA := (claim_C4_amended ⟨⟨2, [⟨1, 7, "a.csv", "a.csv", 1, 5⟩], [⟨1, 0, "hh", true⟩]⟩,
      [], [], ["a.csv"]⟩ 7 1 ⟨1, 7, "a.csv", "a.csv", 1, 5⟩ rfl rfl).1 (by decide) (by decide)
  have HB := (claim_C4_amended ⟨SqliteMem.empty, [(1, ⟨1, 7, "b.csv", "b.csv", 1, 5⟩)],
      [(1, [⟨1, 0, "hh", true⟩])], ["b.csv"]⟩ 7 1 ⟨1, 7, "b.csv", "b.csv", 1, 5⟩ rfl rfl).2
      (by decide) (by decide) (by decide) (by decide) (by decide)
  exact ⟨HA.1, HA.2.2.2.2 7 1 10, HB.1, HB.2.1, HB.2.2.2.2 7 1 10⟩

/-- Claim C5: every mutating statement run against an initialized
record store synchronously persists the full database image before
returning — `run` executes the statement and stores the complete new
image, an uninitialized store throws, and the chunked `save()` loop
writes the whole exported image. -/
theorem claim_C5_run_persists_full_image :
    (∀ (s : SqliteDb) (m : SqliteMem) (stmt : SqlStmt), s.db = some m →
      SqliteDb.run s stmt = Except.ok ⟨some (sqExec m stmt), some (sqExec m stmt)⟩)
    ∧ (∀ (s : SqliteDb) (stmt : SqlStmt), s.db = none →
      SqliteDb.run s stmt = Except.error "Database not initialized")
    ∧ (∀ (prev data : List Nat), data ≠ [] → saveWrite prev data = data) := by
  refine ⟨fun s m stmt h => ?_, fun s stmt h => ?_, fun prev data h => saveWrite_eq prev data h⟩
  · rw [SqliteDb.run, h]
  · rw [SqliteDb.run, h]

/-- Concrete instance of the C5 statement. -/
theorem claim_C5_witness :
    SqliteDb.run ⟨some SqliteMem.empty, none⟩ (SqlStmt.deleteData 1)
        = Except.ok ⟨some (sqExec SqliteMem.empty (SqlStmt.deleteData 1)),
            some (sqExec SqliteMem.empty (SqlStmt.deleteData 1))⟩
    ∧ saveWrite [9] [1, 2, 3] = [1, 2, 3] :=
  ⟨claim_C5_run_persists_full_image.1 ⟨some SqliteMem.empty, none⟩ SqliteMem.empty
      (SqlStmt.deleteData 1) rfl,
   claim_C5_run_persists_full_image.2.2 [9] [1, 2, 3] (by decide)⟩

/-- Claim C6: for a non-empty parse, the first record is written as row
0 with `is_header` set, the data rows get row numbers `1..N`
contiguously in source order, and the written row numbers are strictly
increasing. -/
theorem claim_C6_row_numbering (fid bs : Nat) (records : List (List String))
    (hdr : List String) (rows : List (List String)) (h : records = hdr :: rows) :
    (ingestRun fid bs records).written.head?
        = some ⟨fid, 0, jsonStringifyArray hdr, true⟩
    ∧ (ingestRun fid bs records).written.map (fun r => r.rowNumber)
        = List.range (rows.length + 1)
    ∧ ((ingestRun fid bs records).written.map (fun r => r.rowNumber)).Pairwise
        (fun a b => a < b)
    ∧ (∀ r ∈ (ingestRun fid bs records).written.tail, r.isHeader = false) := by
  subst h
  have hw := (ingestRun_written fid bs hdr rows).1
  have hmap : (ingestRun fid bs (hdr :: rows)).written.map (fun r => r.rowNumber)
      = List.range (rows.length + 1) := by
    rw [hw, List.map_cons, dataRows_map_rowNumber, List.range_eq_range']
    rfl
  refine ⟨by rw [hw]; rfl, hmap, ?_, ?_⟩
  · rw [hmap]
    exact List.pairwise_lt_range _
  · intro r hr
    rw [hw] at hr
    exact (mem_dataRows fid 1 rows r hr).2.1

/-- Concrete instance of the C6 statement. -/
theorem claim_C6_witness :
    (ingestRun 1 100000 [["h"], ["a"], ["b"]]).written.map (fun r => r.rowNumber)
        = List.range 3
    ∧ (ingestRun 1 100000 [["h"], ["a"], ["b"]]).written.head?
        = some ⟨1, 0, jsonStringifyArray ["h"], true⟩ :=
  ⟨(claim_C6_row_numbering 1 100000 [["h"], ["a"], ["b"]] ["h"] [["a"], ["b"]] rfl).2.1,
   (claim_C6_row_numbering 1 100000 [["h"], ["a"], ["b"]] ["h"] [["a"], ["b"]] rfl).1⟩

/-- Claim C8 is false as stated: with two files ingesting in one
`FileDatabase` instance, the first file's append arms the single
timer, the second file's `scheduleFlush` is a no-op (no second,
per-file timer exists), and the one fire flushes file 2's pending
buffer into its log as well. -/
theorem claim_C8_counterexample :
    (fdInsertData (fdInsertFile (fdInsertFile (FileMem.init [] [])
        7 "p1.csv" "p1.csv" 1).1 7 "p2.csv" "p2.csv" 2).1
        ⟨1, 0, "r1", true⟩).writeTimerSet = true
    ∧ alGet 2 (fdInsertData (fdInsertData (fdInsertFile (fdInsertFile (FileMem.init [] [])
        7 "p1.csv" "p1.csv" 1).1 7 "p2.csv" "p2.csv" 2).1
        ⟨1, 0, "r1", true⟩) ⟨2, 0, "r2", true⟩).pendingWrites
        = some [⟨2, 0, "r2", true⟩]
    ∧ fdScheduleFlush (fdInsertData (fdInsertFile (fdInsertFile (FileMem.init [] [])
        7 "p1.csv" "p1.csv" 1).1 7 "p2.csv" "p2.csv" 2).1 ⟨1, 0, "r1", true⟩)
        = fdInsertData (fdInsertFile (fdInsertFile (FileMem.init [] [])
        7 "p1.csv" "p1.csv" 1).1 7 "p2.csv" "p2.csv" 2).1 ⟨1, 0, "r1", true⟩
    ∧ alGet 2 (fdTimerFire (fdInsertData (fdInsertData (fdInsertFile (fdInsertFile
        (FileMem.init [] []) 7 "p1.csv" "p1.csv" 1).1 7 "p2.csv" "p2.csv" 2).1
        ⟨1, 0, "r1", true⟩) ⟨2, 0, "r2", true⟩)).pendingWrites = none
    ∧ alGet 2 (fdTimerFire (fdInsertData (fdInsertData (fdInsertFile (fdInsertFile
        (FileMem.init [] []) 7 "p1.csv" "p1.csv" 1).1 7 "p2.csv" "p2.csv" 2).1
        ⟨1, 0, "r1", true⟩) ⟨2, 0, "r2", true⟩)).logFiles = some [⟨2, 0, "r2", true⟩] := by
  refine ⟨?_, ?_, ?_, ?_, ?_⟩ <;> decide

/-- Claim C8 (amended): the pending buffer is per-file — appending a
row for one file leaves every other file's buffer untouched — but the
debounced flush timer is a single per-instance `writeTimer`:
scheduling while it is armed is a no-op, and when it fires it flushes
the pending buffer of every file in the instance, not only the file
whose append armed it.  Per-file timer independence holds only across
the separate `FileDatabase` instances each upload request constructs. -/
theorem claim_C8_amended (m : FileMem) (b : Nat) (r : StoredRow) (hrb : r.fileId ≠ b)
    (a2 b2 : Nat) (la lb : List StoredRow) (m2 : FileMem) (hne : a2 ≠ b2)
    (hla : la ≠ []) (hlb : lb ≠ [])
    (hpend : m2.pendingWrites = [(a2, la), (b2, lb)]) (ht : m2.writeTimerSet = true) :
    alGet b (fdInsertData m r).pendingWrites = alGet b m.pendingWrites
    ∧ (m.writeTimerSet = true → fdScheduleFlush m = m)
    ∧ alGet a2 (fdTimerFire m2).pendingWrites = none
    ∧ alGet b2 (fdTimerFire m2).pendingWrites = none
    ∧ alGet a2 (fdTimerFire m2).logFiles = some ((alGet a2 m2.logFiles).getD [] ++ la)
    ∧ alGet b2 (fdTimerFire m2).logFiles = some ((alGet b2 m2.logFiles).getD [] ++ lb) := by
  have hstep : ∀ (mm : FileMem), mm.pendingWrites = [(a2, la), (b2, lb)] →
      fdSave mm = { mm with
        logFiles := alSet b2 ((alGet b2 mm.logFiles).getD [] ++ lb)
          (alSet a2 ((alGet a2 mm.logFiles).getD [] ++ la) mm.logFiles),
        pendingWrites := [] } := by
    intro mm hmm
    match la, hla with
    | x :: xs, _ =>
      match lb, hlb with
      | y :: ys, _ =>
        rw [fdSave, hmm]
        simp only [List.map_cons, List.map_nil, List.foldl_cons, List.foldl_nil]
        have h1 : fdFlushFile mm a2 = { mm with
            logFiles := alSet a2 ((alGet a2 mm.logFiles).getD [] ++ (x :: xs)) mm.logFiles,
            pendingWrites := [(b2, y :: ys)] } := by
          rw [fdFlushFile, hmm]
          simp [alGet, alErase, Ne.symm hne]
        rw [h1]
        have h2 : fdFlushFile { mm with
            logFiles := alSet a2 ((alGet a2 mm.logFiles).getD [] ++ (x :: xs)) mm.logFiles,
            pendingWrites := [(b2, y :: ys)] } b2 = { mm with
            logFiles := alSet b2 ((alGet b2 mm.logFiles).getD [] ++ (y :: ys))
              (alSet a2 ((alGet a2 mm.logFiles).getD [] ++ (x :: xs)) mm.logFiles),
            pendingWrites := [] } := by
          rw [fdFlushFile]
          simp [alGet, alErase, alGet_set_other a2 b2 _ _ hne]
        rw [h2]
  have hfire : fdTimerFire m2 = { fdSave m2 with writeTimerSet := false } := by
    rw [fdTimerFire, if_pos ht]
  refine ⟨?_, ?_, ?_, ?_, ?_, ?_⟩
  · rw [fdInsertData]
    cases halg : alGet r.fileId m.csvData with
    | none => rfl
    | some fd =>
      simp only [fdScheduleFlush]
      by_cases htm : m.writeTimerSet <;>
        simp [htm, alGet_set_other r.fileId b _ _ hrb]
  · intro ht2
    rw [fdScheduleFlush, if_pos ht2]
  · rw [hfire, hstep m2 hpend]
    rfl
  · rw [hfire, hstep m2 hpend]
    rfl
  · rw [hfire, hstep m2 hpend]
    show alGet a2 (alSet b2 _ (alSet a2 _ m2.logFiles)) = _
    rw [alGet_set_other b2 a2 _ _ (fun h => hne h.symm), alGet_set_self]
  · rw [hfire, hstep m2 hpend]
    show alGet b2 (alSet b2 _ (alSet a2 _ m2.logFiles)) = _
    rw [alGet_set_self]

/-- Concrete instance of the amended C8 statement. -/
theorem claim_C8_amended_witness :
    alGet 2 (fdInsertData (FileMem.init [] []) ⟨1, 0, "r", true⟩).pendingWrites
        = alGet 2 (FileMem.init [] []).pendingWrites
    ∧ ((FileMem.init [] []).writeTimerSet = true →
        fdScheduleFlush (FileMem.init [] []) = FileMem.init [] [])
    ∧ alGet 1 (fdTimerFire ⟨[], [], [(1, [⟨1, 1, "x", false⟩]), (2, [⟨2, 1, "y", false⟩])],
        true, []⟩).pendingWrites = none
    ∧ alGet 2 (fdTimerFire ⟨[], [], [(1, [⟨1, 1, "x", false⟩]), (2, [⟨2, 1, "y", false⟩])],
        true, []⟩).pendingWrites = none
    ∧ alGet 1 (fdTimerFire ⟨[], [], [(1, [⟨1, 1, "x", false⟩]), (2, [⟨2, 1, "y", false⟩])],
        true, []⟩).logFiles = some ((alGet 1 (([] : List (Nat × List StoredRow)))).getD []
          ++ [⟨1, 1, "x", false⟩])
    ∧ alGet 2 (fdTimerFire ⟨[], [], [(1, [⟨1, 1, "x", false⟩]), (2, [⟨2, 1, "y", false⟩])],
        true, []⟩).logFiles = some ((alGet 2 (([] : List (Nat × List StoredRow)))).getD []
          ++ [⟨2, 1, "y", false⟩]) :=
  claim_C8_amended (FileMem.init [] []) 2 ⟨1, 0, "r", true⟩ (by decide) 1 2
    [⟨1, 1, "x", false⟩] [⟨2, 1, "y", false⟩]
    ⟨[], [], [(1, [⟨1, 1, "x", false⟩]), (2, [⟨2, 1, "y", false⟩])], true, []⟩
    (by decide) (by decide) (by decide) rfl rfl

/-- Claim C9 is false as stated: a header-only stream (zero data rows)
uploaded through the optimized route is accepted with success and
rowCount 0, not reported as a validation failure. -/
theorem claim_C9_counterexample :
    (uploadOptimized SqliteMem.empty 7 "h_1.csv" "h.csv" 5 [["h1", "h2"]]).2
        = UploadOutcome.success 1 0 := by
  decide

/-- Claim C9 (amended): the main upload route reports a validation
failure for every stream with zero data rows (no records, or a header
only); the optimized route rejects only a stream with no records at
all and accepts a header-only stream, returning success with rowCount
0. -/
theorem claim_C9_amended (d : Disk) (u : Nat) (fn orig : String) (sz : ℚ) (now : Nat)
    (records : List (List String)) (hrec : records.length ≤ 1) (m : SqliteMem)
    (hdr : List String) :
    (uploadOp d u fn orig sz now records).2 = UploadOutcome.emptyFileError
    ∧ (uploadOptimized m u fn orig now []).2 = UploadOutcome.emptyFileError
    ∧ (∃ fid : Nat, (uploadOptimized m u fn orig now [hdr]).2
        = UploadOutcome.success fid 0) := by
  have hrc : (ingestRun 0 100000 records).rowCount = 0 ∧
      ∀ i : Nat, (ingestRun i 100000 records).rowCount = 0 := by
    constructor
    · match records, hrec with
      | [], _ => rfl
      | [r0], _ => exact (ingestRun_written 0 100000 r0 []).2
    · intro i
      match records, hrec with
      | [], _ => rfl
      | [r0], _ => exact (ingestRun_written i 100000 r0 []).2
  refine ⟨?_, ?_, ?_⟩
  · cases hsel : selectDatabase sz with
    | sqlite =>
      obtain ⟨i, hi⟩ := Option.isSome_iff_exists.mp (sqFindIdByFilename_insert_isSome d.sqliteImage u fn orig now)
      simp only [uploadOp, hsel, hi]
      rw [if_pos (hrc.2 i)]
    | filedb =>
      simp only [uploadOp, hsel]
      rw [if_pos (hrc.2 _)]
  · have hsome : ((sqInsertFile m u fn orig now).csvFiles.find? (fun f => f.filename = fn)).isSome := by
      apply List.find?_isSome.mpr
      refine ⟨⟨m.nextFileId, u, fn, orig, 0, now⟩, ?_, by simp⟩
      show _ ∈ m.csvFiles ++ [_]
      simp
    obtain ⟨f0, hf0⟩ := Option.isSome_iff_exists.mp hsome
    simp only [uploadOptimized, hf0]
    rfl
  · have hsome : ((sqInsertFile m u fn orig now).csvFiles.find? (fun f => f.filename = fn)).isSome := by
      apply List.find?_isSome.mpr
      refine ⟨⟨m.nextFileId, u, fn, orig, 0, now⟩, ?_, by simp⟩
      show _ ∈ m.csvFiles ++ [_]
      simp
    obtain ⟨f0, hf0⟩ := Option.isSome_iff_exists.mp hsome
    refine ⟨f0.id, ?_⟩
    simp only [uploadOptimized, hf0]
    rfl

/-- Concrete instance of the amended C9 statement. -/
theorem claim_C9_amended_witness :
    (uploadOp Disk.empty 7 "w_1.csv" "w.csv" 1 100 [["h1"]]).2 = UploadOutcome.emptyFileError
    ∧ (uploadOptimized SqliteMem.empty 7 "w_1.csv" "w.csv" 100 []).2
        = UploadOutcome.emptyFileError
    ∧ (∃ fid : Nat, (uploadOptimized SqliteMem.empty 7 "w_1.csv" "w.csv" 100 [["h1"]]).2
        = UploadOutcome.success fid 0) :=
  claim_C9_amended Disk.empty 7 "w_1.csv" "w.csv" 1 100 [["h1"]] (by decide)
    SqliteMem.empty ["h1"]

/-- Claim C10: when an upload is rejected as empty, the metadata record
inserted at the start is not rolled back — after a header-only upload
the store still holds the `csv_files` record with `row_count` 0 and
the header row and no data rows, and the record shows up in the
user's file listing. -/
theorem claim_C10_empty_upload_keeps_metadata :
    (uploadOp Disk.empty 7 "e_1.csv" "e.csv" 1 100 [["h1", "h2"]]).2
        = UploadOutcome.emptyFileError
    ∧ (uploadOp Disk.empty 7 "e_1.csv" "e.csv" 1 100 [["h1", "h2"]]).1.sqliteImage.csvFiles
        = [⟨1, 7, "e_1.csv", "e.csv", 0, 100⟩]
    ∧ (uploadOp Disk.empty 7 "e_1.csv" "e.csv" 1 100 [["h1", "h2"]]).1.sqliteImage.csvData
        = [⟨1, 0, jsonStringifyArray ["h1", "h2"], true⟩]
    ∧ listOp (uploadOp Disk.empty 7 "e_1.csv" "e.csv" 1 100 [["h1", "h2"]]).1 7
        = [⟨1, 7, "e_1.csv", "e.csv", 0, 100⟩] := by
  refine ⟨?_, ?_, ?_, ?_⟩ <;> decide

end CSVViewer
